import Mathlib

/-!
Verification of the ownership-checked core of the "gaut" language front end:
a shallow embedding of the static type/move/escape checker
(crates/frontend/src/typecheck.rs), the tree-walking evaluator
(crates/interp/src/lib.rs), the bump arena (crates/runtime/src/arena.rs) and
the codegen-side alias resolver (crates/cgen/src/lib.rs), together with
theorems about the move discipline, the escape rule, the return-type
inference worklist, binary arithmetic, assignment, field moves, division,
alias-resolution termination and the arena allocator.

Embedding conventions:
  * Rust `HashMap` becomes an association list with first-match lookup and
    replace-first-occurrence insertion (`lookupAssoc` / `updateAssoc`); key
    sets stay duplicate-free because all writes go through `updateAssoc`.
  * The Rust scope stacks store the innermost scope at the END of a `Vec`
    and search in reverse; here the innermost scope is the HEAD of a list
    and search runs front to back — the same abstract stack.
  * Rust functions that take `&mut self` are modelled by threading the
    state explicitly; a function whose Rust error paths leave mutations in
    place returns the (possibly mutated) state alongside the error.
  * The checker's `resolve_type` and every function that can reach it
    recurse through the alias table, which is not structurally decreasing
    (the source has no cycle guard there), so those functions take an
    explicit fuel argument; `none` means the fuel ran out, i.e. the Rust
    function would still be running.  All recursive calls pass `fuel` from
    a `fuel + 1` pattern, so any terminating Rust computation is reproduced
    for every sufficiently large fuel.
  * A Rust `panic!` (such as integer division by zero) is modelled as
    `none` in an `Option`-valued result, distinct from every typed error.
-/

/-! ### Abstract syntax (crates/frontend/src/ast.rs)

`Ident` is represented as `String`, `Path` as `List String`, and the
`FieldType` / `FieldInit` structs as pairs. -/

inductive Ty where
  | named : String → Ty
  | ref : Ty → Ty
  | record : List (String × Ty) → Ty
deriving Repr

inductive UnaryOp where
  | neg
  | not
deriving Repr, DecidableEq

inductive BinaryOp where
  | mul
  | div
  | add
  | sub
  | lt
  | eq
  | and
  | or
deriving Repr, DecidableEq

inductive Literal where
  | int : Int → Literal
  | bool : Bool → Literal
  | str : String → Literal
  | unit
deriving Repr

mutual
inductive Expr where
  | lit : Literal → Expr
  | path : List String → Expr
  | copy : Expr → Expr
  | ref : Expr → Expr
  | call : List String → List Expr → Expr
  | ifE : Expr → Expr → Expr → Expr
  | block : Block → Expr
  | recordLit : List (String × Expr) → Expr
  | unary : UnaryOp → Expr → Expr
  | binary : Expr → BinaryOp → Expr → Expr
deriving Repr
inductive Block where
  | mk : List Stmt → Option Expr → Block
deriving Repr
inductive Stmt where
  | bindingS : BindingDecl → Stmt
  | assignS : List String → Expr → Stmt
  | exprS : Expr → Stmt
deriving Repr
inductive BindingDecl where
  | mk : Bool → String → Ty → Expr → BindingDecl
deriving Repr
end

def Block.stmts : Block → List Stmt
  | .mk s _ => s

def Block.tail : Block → Option Expr
  | .mk _ t => t

def BindingDecl.mutableFlag : BindingDecl → Bool
  | .mk m _ _ _ => m

def BindingDecl.name : BindingDecl → String
  | .mk _ n _ _ => n

def BindingDecl.ty : BindingDecl → Ty
  | .mk _ _ t _ => t

def BindingDecl.value : BindingDecl → Expr
  | .mk _ _ _ v => v

structure Param where
  mutableFlag : Bool
  name : String
  ty : Ty
deriving Repr

structure FuncDecl where
  name : String
  params : List Param
  ret : Option Ty
  body : Expr
deriving Repr

inductive Decl where
  | importD : String → Decl
  | globalD : BindingDecl → Decl
  | letD : BindingDecl → Decl
  | typeD : String → Ty → Decl
  | funcD : FuncDecl → Decl
deriving Repr

/-- A program is its ordered declaration list (struct `Program` in ast.rs). -/
def Program := List Decl

/-! ### Association-list maps (model of `HashMap` / `IndexMap`) -/

/-- First-match lookup, the model of `HashMap::get` / `IndexMap::get`. -/
def lookupAssoc {α : Type} : List (String × α) → String → Option α
  | [], _ => none
  | (k', v') :: rest, k => if k' = k then some v' else lookupAssoc rest k

/-- Replace the first entry with the given key, or append a fresh entry;
the model of `HashMap::insert` / `IndexMap::insert` (keys stay unique). -/
def updateAssoc {α : Type} : List (String × α) → String → α → List (String × α)
  | [], k, v => [(k, v)]
  | (k', v') :: rest, k, v =>
    if k' = k then (k, v) :: rest else (k', v') :: updateAssoc rest k v

/-! ### Pure helpers shared with the checker (typecheck.rs free functions) -/

/-- Model of `path_to_string`: join the segments with dots. -/
def pathToString (p : List String) : String :=
  String.intercalate "." p

/-- Model of `literal_type`. -/
def literalType : Literal → Ty
  | .int _ => .named "i32"
  | .bool _ => .named "bool"
  | .str _ => .named "Str"
  | .unit => .named "Unit"

mutual
/-- Model of `type_contains_ref` (mutually with its traversal of the field
list of a record type). -/
def typeContainsRef : Ty → Bool
  | .named _ => false
  | .ref _ => true
  | .record fields => fieldsContainRef fields
def fieldsContainRef : List (String × Ty) → Bool
  | [] => false
  | (_, t) :: rest => typeContainsRef t || fieldsContainRef rest
end

mutual
/-- Structural size of a type, used only to derive an induction principle
for the nested `Ty` inductive. -/
def sizeTy : Ty → Nat
  | .named _ => 1
  | .ref t => sizeTy t + 1
  | .record fs => sizeFields fs + 1
/-- Structural size of a record field list. -/
def sizeFields : List (String × Ty) → Nat
  | [] => 0
  | (_, t) :: rest => sizeTy t + sizeFields rest + 1
end

/-! ### Checker data model (typecheck.rs) -/

inductive TypeError where
  | unknownIdent : String → TypeError
  | unknownType : String → TypeError
  | unknownFunc : String → TypeError
  | unknownFuncReturn : String → TypeError
  | typeMismatch : Ty → Ty → TypeError
  | arityMismatch : Nat → Nat → TypeError
  | moved : String → TypeError
  | notMutable : String → TypeError
  | escape
  | mainHasParams
deriving Repr

structure BindingInfo where
  ty : Ty
  mutableFlag : Bool
  moved : Bool
  originDepth : Nat
deriving Repr

structure Scope where
  vars : List (String × BindingInfo)
deriving Repr

structure FuncSig where
  params : List Param
  ret : Option Ty
deriving Repr

structure TCState where
  types : List (String × Ty)
  funcs : List (String × FuncSig)
  scopes : List Scope
  builtins : List String
deriving Repr

structure TyInfo where
  ty : Ty
  originDepth : Nat
  escapable : Bool
deriving Repr

inductive ValueMode where
  | move
  | copy
  | borrow
deriving Repr, DecidableEq

/-- Model of `TypeChecker::current_depth` (`scopes.len().saturating_sub(1)`,
and `Nat` subtraction is saturating). -/
def currentDepth (st : TCState) : Nat :=
  st.scopes.length - 1

/-- Model of `TypeChecker::push_scope` (innermost scope at the head). -/
def pushScope (st : TCState) : TCState :=
  { st with scopes := { vars := [] } :: st.scopes }

/-- Model of `TypeChecker::pop_scope`. -/
def popScope (st : TCState) : TCState :=
  { st with scopes := st.scopes.tail }

/-- Model of `TypeChecker::insert_var` (a no-op when the scope stack is
empty, matching the Rust `if let Some(scope) = self.scopes.last_mut()`). -/
def insertVar (st : TCState) (name : String) (ty : Ty) (mutableFlag : Bool)
    (originDepth : Nat) : TCState :=
  match st.scopes with
  | [] => st
  | s :: rest =>
    { st with scopes :=
        { vars := updateAssoc s.vars name
            { ty := ty, mutableFlag := mutableFlag, moved := false,
              originDepth := originDepth } } :: rest }

/-- Repeatedly unwrap `Ref` before a field step, the inner `loop` of
`TypeChecker::lookup_binding`. -/
def unwrapRefs : Ty → Ty
  | .ref inner => unwrapRefs inner
  | t => t

/-- Follow the dotted field segments through a type, the field loop of
`TypeChecker::lookup_binding`. -/
def walkFields : Ty → List String → Except TypeError Ty
  | ty, [] => .ok ty
  | ty, f :: rest =>
    match unwrapRefs ty with
    | .record fields =>
      match lookupAssoc fields f with
      | some ft => walkFields ft rest
      | none => .error (.unknownIdent f)
    | _ => .error (.unknownIdent f)

/-- Search the scope stack innermost-first for the head identifier; returns
the 0-based depth of the owning scope (counted from the outermost scope)
with the stored binding, as in `TypeChecker::lookup_binding`. -/
def lookupInScopes : List Scope → String → Option (Nat × BindingInfo)
  | [], _ => none
  | s :: rest, head =>
    match lookupAssoc s.vars head with
    | some info => some (rest.length, info)
    | none => lookupInScopes rest head

/-- Model of `TypeChecker::lookup_binding`. -/
def lookupBinding (st : TCState) (p : List String) :
    Except TypeError (Nat × BindingInfo) :=
  match p with
  | [] => .error (.unknownIdent "")
  | head :: rest =>
    match lookupInScopes st.scopes head with
    | none => .error (.unknownIdent head)
    | some (depth, info) =>
      match walkFields info.ty rest with
      | .error e => .error e
      | .ok ty =>
        .ok (depth,
          { ty := ty, mutableFlag := info.mutableFlag, moved := info.moved,
            originDepth := info.originDepth })

/-- Set the moved flag of the head binding of a path in the innermost scope
that declares it (as in `TypeChecker::set_moved`, a dotted path still flags
the whole binding). -/
def setMovedGo : List Scope → String → Bool → Option (List Scope)
  | [], _, _ => none
  | s :: rest, head, m =>
    match lookupAssoc s.vars head with
    | some info =>
      some ({ vars := updateAssoc s.vars head { info with moved := m } } :: rest)
    | none =>
      match setMovedGo rest head m with
      | some rest' => some (s :: rest')
      | none => none

/-- Model of `TypeChecker::set_moved`. -/
def setMoved (st : TCState) (p : List String) (m : Bool) :
    Except TypeError TCState :=
  match p with
  | [] => .error (.unknownIdent "")
  | head :: _ =>
    match setMovedGo st.scopes head m with
    | some scopes' => .ok { st with scopes := scopes' }
    | none => .error (.unknownIdent head)

/-- Model of `TypeChecker::eval_path`: a `Move` read errors on a moved
binding and otherwise flags it moved; `Copy`/`Borrow` only error on a moved
binding.  The result's `escapable` is always false for a path read. -/
def evalPath (st : TCState) (p : List String) (mode : ValueMode) :
    Except TypeError (TyInfo × TCState) :=
  match lookupBinding st p with
  | .error e => .error e
  | .ok (_, info) =>
    match mode with
    | .move =>
      if info.moved then .error (.moved (pathToString p))
      else
        match setMoved st p true with
        | .error e => .error e
        | .ok st' =>
          .ok ({ ty := info.ty, originDepth := info.originDepth,
                 escapable := false }, st')
    | .copy | .borrow =>
      if info.moved then .error (.moved (pathToString p))
      else
        .ok ({ ty := info.ty, originDepth := info.originDepth,
               escapable := false }, st)

/-! ### Type resolution and type equality (typecheck.rs `resolve_type`,
`type_eq`, `ensure_type`, `ensure_not_escape`)

`resolve_type` recurses through the alias table with no cycle guard, so its
model takes fuel; `none` marks a computation that would not have returned. -/

mutual
/-- Model of `TypeChecker::resolve_type`: builtin names return their table
entry unexpanded, other names expand recursively through the alias table. -/
def resolveTypeF : Nat → TCState → Ty → Option (Except TypeError Ty)
  | 0, _, _ => none
  | fuel+1, st, ty =>
    match ty with
    | .named id =>
      match lookupAssoc st.types id with
      | some t =>
        if id ∈ st.builtins then some (.ok t) else resolveTypeF fuel st t
      | none => some (.error (.unknownType id))
    | .ref inner =>
      match resolveTypeF fuel st inner with
      | none => none
      | some (.error e) => some (.error e)
      | some (.ok r) => some (.ok (.ref r))
    | .record fields =>
      match resolveFieldsF fuel st fields with
      | none => none
      | some (.error e) => some (.error e)
      | some (.ok out) => some (.ok (.record out))
/-- Field loop of `resolve_type` on a record type. -/
def resolveFieldsF : Nat → TCState → List (String × Ty) →
    Option (Except TypeError (List (String × Ty)))
  | 0, _, _ => none
  | fuel+1, st, fields =>
    match fields with
    | [] => some (.ok [])
    | (n, t) :: rest =>
      match resolveTypeF fuel st t with
      | none => none
      | some (.error e) => some (.error e)
      | some (.ok r) =>
        match resolveFieldsF fuel st rest with
        | none => none
        | some (.error e) => some (.error e)
        | some (.ok out) => some (.ok ((n, r) :: out))
end

mutual
/-- Model of `TypeChecker::type_eq`: resolve both sides, then compare
structurally; record fields must agree in name and order, and an error
while comparing a field counts as inequality (`unwrap_or(false)`). -/
def typeEqF : Nat → TCState → Ty → Ty → Option (Except TypeError Bool)
  | 0, _, _, _ => none
  | fuel+1, st, a, b =>
    match resolveTypeF fuel st a with
    | none => none
    | some (.error e) => some (.error e)
    | some (.ok ra) =>
      match resolveTypeF fuel st b with
      | none => none
      | some (.error e) => some (.error e)
      | some (.ok rb) =>
        match ra, rb with
        | .named x, .named y => some (.ok (x == y))
        | .ref ax, .ref bx => typeEqF fuel st ax bx
        | .record af, .record bf =>
          if af.length = bf.length then typeEqFieldsF fuel st af bf
          else some (.ok false)
        | _, _ => some (.ok false)
/-- Zipped field comparison of `type_eq` on two record types. -/
def typeEqFieldsF : Nat → TCState → List (String × Ty) →
    List (String × Ty) → Option (Except TypeError Bool)
  | 0, _, _, _ => none
  | fuel+1, st, af, bf =>
    match af, bf with
    | (an, at') :: arest, (bn, bt) :: brest =>
      if an = bn then
        match typeEqF fuel st at' bt with
        | none => none
        | some r =>
          if (match r with | .ok t => t | .error _ => false) then
            typeEqFieldsF fuel st arest brest
          else some (.ok false)
      else some (.ok false)
    | _, _ => some (.ok true)
end

/-- Model of `TypeChecker::ensure_type`. -/
def ensureTypeF (fuel : Nat) (st : TCState) (expected found : Ty) :
    Option (Except TypeError Unit) :=
  match typeEqF fuel st expected found with
  | none => none
  | some (.error e) => some (.error e)
  | some (.ok true) => some (.ok ())
  | some (.ok false) => some (.error (.typeMismatch expected found))

/-- Model of `TypeChecker::ensure_not_escape`: a value whose origin depth
exceeds the target depth passes only when it is escapable and its recorded
type contains no `Ref` (the type is tested as stored, without alias
expansion). -/
def ensureNotEscape (info : TyInfo) (targetDepth : Nat) :
    Except TypeError Unit :=
  if info.originDepth > targetDepth then
    if !info.escapable || typeContainsRef info.ty then .error .escape
    else .ok ()
  else .ok ()

/-! ### The expression/statement checker (typecheck.rs `check_expr` and
friends)

The checker mutates `self` (the scope stack and, at the end of
`check_func`, the function table); every function below threads `TCState`
and returns it even on the error path, because Rust's `?` propagates the
error while leaving earlier mutations in place (in particular `check_block`
does not pop its scope on an error path). -/

/-- Checker results: `none` is fuel exhaustion, otherwise the verdict is
paired with the state as mutated so far. -/
abbrev TCRes (α : Type) := Option (Except TypeError α × TCState)

/-- Sequencing for `TCRes`: errors (with their state) and fuel exhaustion
propagate. -/
def tbind {α β : Type} (x : TCRes α) (f : α → TCState → TCRes β) : TCRes β :=
  match x with
  | none => none
  | some (.error e, st) => some (.error e, st)
  | some (.ok a, st) => f a st

/-- Sequencing a pure fallible result into a stateful computation; the
given state is the one paired with an error. -/
def pbind {α β : Type} (x : Option (Except TypeError α)) (st : TCState)
    (f : α → TCRes β) : TCRes β :=
  match x with
  | none => none
  | some (.error e) => some (.error e, st)
  | some (.ok a) => f a

mutual
/-- Model of `TypeChecker::check_expr`. -/
def checkExpr : Nat → TCState → Expr → ValueMode → TCRes TyInfo
  | 0, _, _, _ => none
  | fuel+1, st, e, mode =>
    match e with
    | .lit l =>
      some (.ok { ty := literalType l, originDepth := currentDepth st,
                  escapable := true }, st)
    | .path p =>
      match evalPath st p mode with
      | .error er => some (.error er, st)
      | .ok (i, st') => some (.ok i, st')
    | .copy inner => checkExpr fuel st inner .copy
    | .ref inner =>
      tbind (checkExpr fuel st inner .borrow) fun info st' =>
        some (.ok { ty := .ref info.ty, originDepth := info.originDepth,
                    escapable := info.escapable }, st')
    | .call callee args => evalCall fuel st callee args
    | .ifE c tb eb =>
      tbind (checkExpr fuel st c .move) fun ci st1 =>
      pbind (ensureTypeF fuel st1 (.named "bool") ci.ty) st1 fun _ =>
      tbind (checkExpr fuel st1 tb .move) fun ti st2 =>
      tbind (checkExpr fuel st2 eb .move) fun ei st3 =>
      pbind (ensureTypeF fuel st3 ti.ty ei.ty) st3 fun _ =>
      some (.ok { ty := ti.ty,
                  originDepth := max ti.originDepth ei.originDepth,
                  escapable := ti.escapable && ei.escapable }, st3)
    | .block b => checkBlock fuel st b false
    | .recordLit r =>
      tbind (checkFields fuel st r [] (currentDepth st) true) fun out st' =>
        some (.ok { ty := .record out.1, originDepth := out.2.1,
                    escapable := out.2.2 }, st')
    | .unary op x =>
      tbind (checkExpr fuel st x .move) fun val st1 =>
      match op with
      | .neg =>
        pbind (ensureTypeF fuel st1 (.named "i32") val.ty) st1 fun _ =>
          some (.ok val, st1)
      | .not =>
        pbind (ensureTypeF fuel st1 (.named "bool") val.ty) st1 fun _ =>
          some (.ok val, st1)
    | .binary l op r =>
      tbind (checkExpr fuel st l .move) fun li s1 =>
      tbind (checkExpr fuel s1 r .move) fun ri s2 =>
      match op with
      | .add | .sub | .mul | .div =>
        let esc := li.escapable && ri.escapable
        let strCase : TCRes TyInfo :=
          match typeEqF fuel s2 li.ty (.named "Str") with
          | none => none
          | some (.error e) => some (.error e, s2)
          | some (.ok true) =>
            match typeEqF fuel s2 ri.ty (.named "Str") with
            | none => none
            | some (.error e) => some (.error e, s2)
            | some (.ok true) =>
              some (.ok { ty := .named "Str",
                          originDepth := max li.originDepth ri.originDepth,
                          escapable := esc }, s2)
            | some (.ok false) =>
              some (.error (.typeMismatch li.ty ri.ty), s2)
          | some (.ok false) => some (.error (.typeMismatch li.ty ri.ty), s2)
        match typeEqF fuel s2 li.ty (.named "i32") with
        | none => none
        | some (.error e) => some (.error e, s2)
        | some (.ok true) =>
          match typeEqF fuel s2 ri.ty (.named "i32") with
          | none => none
          | some (.error e) => some (.error e, s2)
          | some (.ok true) =>
            some (.ok { ty := .named "i32",
                        originDepth := max li.originDepth ri.originDepth,
                        escapable := esc }, s2)
          | some (.ok false) => strCase
        | some (.ok false) => strCase
      | .lt | .eq =>
        pbind (ensureTypeF fuel s2 li.ty ri.ty) s2 fun _ =>
        some (.ok { ty := .named "bool",
                    originDepth := max li.originDepth ri.originDepth,
                    escapable := li.escapable && ri.escapable }, s2)
      | .and | .or =>
        pbind (ensureTypeF fuel s2 (.named "bool") li.ty) s2 fun _ =>
        pbind (ensureTypeF fuel s2 (.named "bool") ri.ty) s2 fun _ =>
        some (.ok { ty := .named "bool",
                    originDepth := max li.originDepth ri.originDepth,
                    escapable := li.escapable && ri.escapable }, s2)
/-- Model of `TypeChecker::check_block`.  On every error path the pushed
scope is left on the stack, exactly as in the source (plain `return`s). -/
def checkBlock : Nat → TCState → Block → Bool → TCRes TyInfo
  | 0, _, _, _ => none
  | fuel+1, st, b, allowEscape =>
    let st1 := pushScope st
    let depth := currentDepth st1
    tbind (checkStmts fuel st1 b.stmts) fun _ st2 =>
    match b.tail with
    | some expr =>
      tbind (checkExpr fuel st2 expr .move) fun info st3 =>
      let res : TCRes TyInfo :=
        if allowEscape then
          some (.ok { ty := info.ty, originDepth := depth,
                      escapable := !typeContainsRef info.ty }, popScope st3)
        else
          some (.ok { ty := info.ty, originDepth := info.originDepth,
                      escapable := false }, popScope st3)
      if info.originDepth > depth then
        if !allowEscape || typeContainsRef info.ty || !info.escapable then
          some (.error .escape, st3)
        else res
      else
        match ensureNotEscape info depth with
        | .error e => some (.error e, st3)
        | .ok _ => res
    | none =>
      some (.ok { ty := .named "Unit", originDepth := depth,
                  escapable := true }, popScope st2)
/-- Statement loop of `check_block`. -/
def checkStmts : Nat → TCState → List Stmt → TCRes Unit
  | 0, _, _ => none
  | fuel+1, st, stmts =>
    match stmts with
    | [] => some (.ok (), st)
    | s :: rest => tbind (checkStmt fuel st s) fun _ st' => checkStmts fuel st' rest
/-- Model of `TypeChecker::check_stmt`. -/
def checkStmt : Nat → TCState → Stmt → TCRes Unit
  | 0, _, _ => none
  | fuel+1, st, stmt =>
    match stmt with
    | .bindingS b => checkBinding fuel st b (currentDepth st)
    | .assignS target value => checkAssign fuel st target value
    | .exprS e => tbind (checkExpr fuel st e .move) fun _ st' => some (.ok (), st')
/-- Model of `TypeChecker::check_binding`. -/
def checkBinding : Nat → TCState → BindingDecl → Nat → TCRes Unit
  | 0, _, _, _ => none
  | fuel+1, st, b, depth =>
    pbind (resolveTypeF fuel st b.ty) st fun tyAnn =>
    tbind (checkExpr fuel st b.value .move) fun value st1 =>
    match ensureNotEscape value depth with
    | .error e => some (.error e, st1)
    | .ok _ =>
      pbind (ensureTypeF fuel st1 tyAnn value.ty) st1 fun _ =>
      some (.ok (), insertVar st1 b.name tyAnn b.mutableFlag depth)
/-- Model of `TypeChecker::check_assign`: the target must be mutable, the
value is checked under `Move` against the binding's own origin depth and
declared type, and on success the binding's moved flag is cleared. -/
def checkAssign : Nat → TCState → List String → Expr → TCRes Unit
  | 0, _, _, _ => none
  | fuel+1, st, target, value =>
    match lookupBinding st target with
    | .error e => some (.error e, st)
    | .ok (bindingDepth, info) =>
      if !info.mutableFlag then
        some (.error (.notMutable (pathToString target)), st)
      else
        tbind (checkExpr fuel st value .move) fun v st1 =>
        match ensureNotEscape v bindingDepth with
        | .error e => some (.error e, st1)
        | .ok _ =>
          pbind (ensureTypeF fuel st1 info.ty v.ty) st1 fun _ =>
          match setMoved st1 target false with
          | .error e => some (.error e, st1)
          | .ok st2 => some (.ok (), st2)
/-- Model of `TypeChecker::eval_call`. -/
def evalCall : Nat → TCState → List String → List Expr → TCRes TyInfo
  | 0, _, _, _ => none
  | fuel+1, st, callee, args =>
    match callee with
    | [name] =>
      match lookupAssoc st.funcs name with
      | none => some (.error (.unknownFunc name), st)
      | some sig =>
        if sig.params.length ≠ args.length then
          some (.error (.arityMismatch sig.params.length args.length), st)
        else
          tbind (checkArgs fuel st (args.zip sig.params)) fun _ st1 =>
          match sig.ret with
          | none => some (.error (.unknownFuncReturn name), st1)
          | some retTy =>
            some (.ok { ty := retTy, originDepth := currentDepth st1,
                        escapable := !typeContainsRef retTy }, st1)
    | _ => some (.error (.unknownFunc (pathToString callee)), st)
/-- Argument loop of `eval_call` over the zipped argument/parameter list. -/
def checkArgs : Nat → TCState → List (Expr × Param) → TCRes Unit
  | 0, _, _ => none
  | fuel+1, st, pairs =>
    match pairs with
    | [] => some (.ok (), st)
    | (a, p) :: rest =>
      tbind (checkExpr fuel st a .move) fun arg st1 =>
      pbind (resolveTypeF fuel st1 p.ty) st1 fun pty =>
      pbind (ensureTypeF fuel st1 pty arg.ty) st1 fun _ =>
      checkArgs fuel st1 rest
/-- Field loop of `check_expr` on a record literal, accumulating the field
types, the running maximum origin depth and the escapable conjunction. -/
def checkFields : Nat → TCState → List (String × Expr) →
    List (String × Ty) → Nat → Bool → TCRes (List (String × Ty) × Nat × Bool)
  | 0, _, _, _, _, _ => none
  | fuel+1, st, fields, acc, maxDepth, esc =>
    match fields with
    | [] => some (.ok (acc, maxDepth, esc), st)
    | (n, e) :: rest =>
      tbind (checkExpr fuel st e .move) fun val st1 =>
      checkFields fuel st1 rest (acc ++ [(n, val.ty)])
        (max maxDepth val.originDepth) (esc && val.escapable)
end

/-! ### Function checking and the worklist fixed point (typecheck.rs
`check_func`, `check_program`) -/

/-- Parameter loop of `check_func`: resolve each annotated type and insert
the parameter binding at the given depth. -/
def insertParams (fuel : Nat) : TCState → List Param → Nat → TCRes Unit
  | st, [], _ => some (.ok (), st)
  | st, p :: rest, depth =>
    pbind (resolveTypeF fuel st p.ty) st fun ty =>
    insertParams fuel (insertVar st p.name ty p.mutableFlag depth) rest depth

/-- Body dispatch of `check_func`: a block body is checked with
`allow_escape_values = true`, any other body under `Move`. -/
def checkFuncBody (fuel : Nat) (st : TCState) (f : FuncDecl) : TCRes TyInfo :=
  match f.body with
  | .block b => checkBlock fuel st b true
  | other => checkExpr fuel st other .move

/-- Back-fill an inferred return type into the signature table (the Rust
`if let Some(entry) = self.funcs.get_mut(..)`). -/
def setFuncRet (st : TCState) (name : String) (ret : Ty) : TCState :=
  match lookupAssoc st.funcs name with
  | none => st
  | some sig =>
    { st with funcs := updateAssoc st.funcs name { sig with ret := some ret } }

/-- Model of `TypeChecker::check_func`: reject `main` with parameters, look
up the collected signature, push a scope, bind parameters, check the body,
apply the escape rule at the function-body depth, match or infer the return
type, back-fill it, and pop one scope whether or not checking succeeded. -/
def checkFunc (fuel : Nat) (st : TCState) (f : FuncDecl) : TCRes Unit :=
  if f.name = "main" && !f.params.isEmpty then some (.error .mainHasParams, st)
  else
    match lookupAssoc st.funcs f.name with
    | none => some (.error (.unknownFunc f.name), st)
    | some sig =>
      let st1 := pushScope st
      let depth := currentDepth st1
      let inner : TCRes Unit :=
        tbind (insertParams fuel st1 sig.params depth) fun _ st2 =>
        tbind (checkFuncBody fuel st2 f) fun bodyInfo st3 =>
        match ensureNotEscape bodyInfo depth with
        | .error e => some (.error e, st3)
        | .ok _ =>
          match sig.ret with
          | some annotated =>
            pbind (ensureTypeF fuel st3 annotated bodyInfo.ty) st3 fun _ =>
            some (.ok (), setFuncRet st3 f.name annotated)
          | none => some (.ok (), setFuncRet st3 f.name bodyInfo.ty)
      match inner with
      | none => none
      | some (r, st') => some (r, popScope st')

/-- One pass of the worklist in `check_program`: check each pending
function in order; a success sets the progress flag, a failure with
`UnknownFuncReturn` appends the function to the deferred list, and any
other failure aborts the whole pass with that error. -/
def checkFuncs (fuel : Nat) (st : TCState) :
    List FuncDecl → List FuncDecl → Bool →
    Option (Except TypeError (List FuncDecl × Bool) × TCState)
  | [], deferred, progressed => some (.ok (deferred, progressed), st)
  | f :: rest, deferred, progressed =>
    match checkFunc fuel st f with
    | none => none
    | some (.ok _, st') => checkFuncs fuel st' rest deferred true
    | some (.error (.unknownFuncReturn _), st') =>
      checkFuncs fuel st' rest (deferred ++ [f]) progressed
    | some (.error e, st') => some (.error e, st')

/-- The worklist loop of `check_program`, with its own fuel for the number
of passes (the Rust loop is unbounded; the stabilization theorem below
shows `pending.length + 1` passes always suffice).  A pass with progress
retries the deferred set; a pass without progress fails with
`UnknownFuncReturn` naming the first deferred function. -/
def checkLoopF (fuel : Nat) : Nat → TCState → List FuncDecl →
    Option (Except TypeError Unit × TCState)
  | 0, _, _ => none
  | loopFuel+1, st, pending =>
    if pending.isEmpty then some (.ok (), st)
    else
      match checkFuncs fuel st pending [] false with
      | none => none
      | some (.error e, st') => some (.error e, st')
      | some (.ok (deferred, progressed), st') =>
        if progressed then checkLoopF fuel loopFuel st' deferred
        else
          some (.error (.unknownFuncReturn
            (match deferred.head? with
             | some g => g.name
             | none => "<unknown>")), st')

/-- Pass 1 of `check_program`: collect type aliases and function
signatures before checking any bodies. -/
def collectSigs : TCState → List Decl → TCState
  | st, [] => st
  | st, d :: ds =>
    match d with
    | .typeD n t => collectSigs { st with types := updateAssoc st.types n t } ds
    | .funcD f =>
      let sig : FuncSig := { params := f.params, ret := f.ret }
      collectSigs { st with funcs := updateAssoc st.funcs f.name sig } ds
    | _ => collectSigs st ds

/-- Pass 2 preamble of `check_program`: check `global`/`let` bindings at
depth 0 in declaration order and collect the functions to check. -/
def checkTop (fuel : Nat) : TCState → List Decl → List FuncDecl →
    Option (Except TypeError (List FuncDecl) × TCState)
  | st, [], acc => some (.ok acc, st)
  | st, d :: ds, acc =>
    match d with
    | .importD _ | .typeD _ _ => checkTop fuel st ds acc
    | .funcD f => checkTop fuel st ds (acc ++ [f])
    | .globalD b | .letD b =>
      match checkBinding fuel st b 0 with
      | none => none
      | some (.error e, st') => some (.error e, st')
      | some (.ok _, st') => checkTop fuel st' ds acc

/-- The builtin type table of `TypeChecker::new` (the seven scalars plus
`ReadFileResult`; every name present at that point is a builtin). -/
def initialTypes : List (String × Ty) :=
  [("i32", .named "i32"), ("i64", .named "i64"), ("u8", .named "u8"),
   ("bool", .named "bool"), ("Str", .named "Str"), ("Bytes", .named "Bytes"),
   ("Unit", .named "Unit"),
   ("ReadFileResult",
     .record [("ok", .named "bool"), ("data", .named "Str")])]

/-- The builtin function signature table of `TypeChecker::new`. -/
def initialFuncs : List (String × FuncSig) :=
  [("print",
     { params := [{ mutableFlag := false, name := "msg", ty := .named "Str" }],
       ret := some (.named "Str") }),
   ("println",
     { params := [{ mutableFlag := false, name := "msg", ty := .named "Str" }],
       ret := some (.named "Str") }),
   ("read_file",
     { params := [{ mutableFlag := false, name := "path", ty := .named "Str" }],
       ret := some (.named "Str") }),
   ("write_file",
     { params := [{ mutableFlag := false, name := "path", ty := .named "Str" },
                  { mutableFlag := false, name := "data", ty := .named "Str" }],
       ret := some (.named "Unit") }),
   ("args", { params := [], ret := some (.named "Bytes") }),
   ("bytes_to_str",
     { params := [{ mutableFlag := false, name := "buf", ty := .named "Bytes" }],
       ret := some (.named "Str") }),
   ("try_read_file",
     { params := [{ mutableFlag := false, name := "path", ty := .named "Str" }],
       ret := some (.named "ReadFileResult") }),
   ("try_write_file",
     { params := [{ mutableFlag := false, name := "path", ty := .named "Str" },
                  { mutableFlag := false, name := "data", ty := .named "Str" }],
       ret := some (.named "bool") }),
   ("str_len",
     { params := [{ mutableFlag := false, name := "s", ty := .named "Str" }],
       ret := some (.named "i32") }),
   ("str_byte_at",
     { params := [{ mutableFlag := false, name := "s", ty := .named "Str" },
                  { mutableFlag := false, name := "i", ty := .named "i32" }],
       ret := some (.named "i32") }),
   ("str_slice",
     { params := [{ mutableFlag := false, name := "s", ty := .named "Str" },
                  { mutableFlag := false, name := "start", ty := .named "i32" },
                  { mutableFlag := false, name := "len", ty := .named "i32" }],
       ret := some (.named "Str") })]

/-- Model of `TypeChecker::new`. -/
def initialState : TCState :=
  { types := initialTypes, funcs := initialFuncs, scopes := [],
    builtins := initialTypes.map Prod.fst }

/-- Model of `TypeChecker::check_program`: collect signatures, push the
global scope, check globals/lets, then run the worklist (with enough loop
fuel, justified by the stabilization theorem below). -/
def checkProgram (fuel : Nat) (p : Program) :
    Option (Except TypeError Unit × TCState) :=
  let st0 := collectSigs initialState p
  let st1 := pushScope st0
  match checkTop fuel st1 p [] with
  | none => none
  | some (.error e, st') => some (.error e, st')
  | some (.ok pending, st') => checkLoopF fuel (pending.length + 1) st' pending

/-! ### Bump arena (crates/runtime/src/arena.rs)

The byte buffer is a `List Nat`; `alloc` returns the allocated view
alongside the (possibly unchanged) arena, since the Rust method only
advances `off` on success. -/

structure Arena where
  buf : List Nat
  off : Nat
deriving Repr

inductive ArenaError where
  | outOfCapacity : Nat → Nat → ArenaError
deriving Repr, DecidableEq

/-- Model of `Arena::with_capacity`. -/
def Arena.withCapacity (cap : Nat) : Arena :=
  { buf := List.replicate cap 0, off := 0 }

/-- Model of `Arena::capacity`. -/
def Arena.capacity (a : Arena) : Nat := a.buf.length

/-- Model of `Arena::remaining` (`saturating_sub`, as is `Nat`
subtraction). -/
def Arena.remaining (a : Arena) : Nat := a.buf.length - a.off

/-- Model of `Arena::alloc`: refuse requests larger than the remaining
space (leaving the arena untouched), otherwise hand out the slice
`buf[off .. off + size]` and bump the offset. -/
def Arena.alloc (a : Arena) (size : Nat) :
    Except ArenaError (List Nat) × Arena :=
  if size > a.remaining then
    (.error (.outOfCapacity size a.remaining), a)
  else
    (.ok ((a.buf.take (a.off + size)).drop a.off), { a with off := a.off + size })

/-- Model of `Arena::reset`. -/
def Arena.reset (a : Arena) : Arena := { a with off := 0 }

/-! ### Evaluator data model (crates/interp/src/lib.rs) -/

inductive Value where
  | int : Int → Value
  | bool : Bool → Value
  | str : String → Value
  | record : List (String × Value) → Value
  | unit
deriving Repr

inductive RuntimeError where
  | unknownIdent : String → RuntimeError
  | moved : String → RuntimeError
  | notMutable : String → RuntimeError
  | fieldNotFound : String → RuntimeError
  | type : String → RuntimeError
deriving Repr

mutual
/-- Model of the derived `PartialEq` on `Value`; `IndexMap` equality is
length equality plus key-by-key agreement, independent of field order. -/
def valueEq : Value → Value → Bool
  | .int a, .int b => a == b
  | .bool a, .bool b => a == b
  | .str a, .str b => a == b
  | .record ma, .record mb => ma.length == mb.length && recordFieldsEq ma mb
  | .unit, .unit => true
  | _, _ => false
/-- Key-by-key comparison of the first record's fields against the second
record (the `IndexMap::eq` iteration). -/
def recordFieldsEq : List (String × Value) → List (String × Value) → Bool
  | [], _ => true
  | (k, v) :: rest, mb =>
    (match lookupAssoc mb k with
     | some bv => valueEq v bv
     | none => false) && recordFieldsEq rest mb
end

/-- Model of the evaluator's `Binding` struct: `value = none` is the moved
state. -/
structure RBinding where
  mutableFlag : Bool
  value : Option Value
deriving Repr

inductive EvalMode where
  | move
  | copy
  | borrow
deriving Repr, DecidableEq

/-- A runtime scope: one name-to-binding map. -/
abbrev ScopeV := List (String × RBinding)

/-- Model of the evaluator's `Env` (scope stack plus bump arena; the
innermost scope is at the head, see the embedding conventions). -/
structure Env where
  scopes : List ScopeV
  arena : Arena
deriving Repr

/-- Model of `extract_field`: taking a field out of an owned record value.
Rust removes the entry with `shift_remove` and returns it; every caller
discards the remaining record, so returning the looked-up field is the
same function. A non-record value is a runtime type error. -/
def extractField (v : Value) (field : String) : Except RuntimeError Value :=
  match v with
  | .record m =>
    match lookupAssoc m field with
    | some x => .ok x
    | none => .error (.fieldNotFound field)
  | _ => .error (.type "field access on non-record")

/-- The field loop of `Env::resolve_path` over the dotted segments. -/
def extractFields : Value → List String → Except RuntimeError Value
  | v, [] => .ok v
  | v, f :: rest =>
    match extractField v f with
    | .ok v' => extractFields v' rest
    | .error e => .error e

/-- The binding search shared by `Env::resolve_path` and
`Env::assign_path`: innermost scope first, first match wins. -/
def findRB : List ScopeV → String → Option RBinding
  | [], _ => none
  | s :: rest, head =>
    match lookupAssoc s head with
    | some b => some b
    | none => findRB rest head

/-- Scope walk of `Env::resolve_path`.  A `Move` read takes the whole
value out of the binding before extracting fields, so the mutation
persists even when a later field step fails; `Copy`/`Borrow` clone and
leave the scopes untouched. -/
def resolveGo : List ScopeV → String → List String → EvalMode →
    Except RuntimeError Value × List ScopeV
  | [], head, _, _ => (.error (.unknownIdent head), [])
  | s :: others, head, rest, mode =>
    match lookupAssoc s head with
    | none =>
      match resolveGo others head rest mode with
      | (r, others') => (r, s :: others')
    | some b =>
      match mode with
      | .move =>
        match b.value with
        | none => (.error (.moved head), s :: others)
        | some v =>
          match extractFields v rest with
          | .ok out => (.ok out, updateAssoc s head { b with value := none } :: others)
          | .error e => (.error e, updateAssoc s head { b with value := none } :: others)
      | .copy | .borrow =>
        match b.value with
        | none => (.error (.moved head), s :: others)
        | some v =>
          match extractFields v rest with
          | .ok out => (.ok out, s :: others)
          | .error e => (.error e, s :: others)

/-- Model of `Env::resolve_path`. -/
def resolvePath (env : Env) (p : List String) (mode : EvalMode) :
    Except RuntimeError Value × Env :=
  match p with
  | [] => (.error (.unknownIdent ""), env)
  | head :: rest =>
    match resolveGo env.scopes head rest mode with
    | (r, scopes') => (r, { env with scopes := scopes' })

/-- Model of `set_field`: walk the dotted path through nested records and
replace the addressed slot; missing fields and non-record intermediates
are runtime errors, and nothing is mutated on an error. -/
def setField : Value → List String → Value → Except RuntimeError Value
  | _, [], value => .ok value
  | target, key :: restPath, value =>
    match target with
    | .record m =>
      match lookupAssoc m key with
      | none => .error (.fieldNotFound key)
      | some slotv =>
        if restPath.isEmpty then .ok (.record (updateAssoc m key value))
        else
          match setField slotv restPath value with
          | .ok slotv' => .ok (.record (updateAssoc m key slotv'))
          | .error e => .error e
    | _ => .error (.type "assignment into non-record field")

/-- Scope walk of `Env::assign_path`: the binding must be mutable and must
still hold a value (`Moved` otherwise, even for a whole-binding
assignment); an empty rest replaces the whole value, a dotted rest goes
through `set_field`. -/
def assignGo : List ScopeV → String → List String → Value →
    Except RuntimeError (List ScopeV)
  | [], head, _, _ => .error (.unknownIdent head)
  | s :: others, head, rest, value =>
    match lookupAssoc s head with
    | none =>
      match assignGo others head rest value with
      | .ok others' => .ok (s :: others')
      | .error e => .error e
    | some b =>
      if !b.mutableFlag then .error (.notMutable head)
      else
        match b.value with
        | none => .error (.moved head)
        | some slot =>
          if rest.isEmpty then
            .ok (updateAssoc s head { b with value := some value } :: others)
          else
            match setField slot rest value with
            | .ok slot' =>
              .ok (updateAssoc s head { b with value := some slot' } :: others)
            | .error e => .error e

/-- Model of `Env::assign_path`. -/
def assignPath (env : Env) (p : List String) (value : Value) :
    Except RuntimeError Env :=
  match p with
  | [] => .error (.unknownIdent "")
  | head :: rest =>
    match assignGo env.scopes head rest value with
    | .ok scopes' => .ok { env with scopes := scopes' }
    | .error e => .error e

/-! ### Binary operator evaluation (interp `Interpreter::eval_binary`)

The operands are Rust `i64` values.  Division by zero (and the overflowing
`i64::MIN / -1`) panics in Rust in every build profile — modelled as
`none`.  The remaining arithmetic is modelled with two's-complement
wrapping (the behaviour of the shipped release profile; debug builds would
also panic on overflow, which no theorem below depends on). -/

def i64Min : Int := -(2 ^ 63)

/-- Wrap an integer into the `i64` range. -/
def i64wrap (z : Int) : Int := (z + 2 ^ 63) % 2 ^ 64 - 2 ^ 63

/-- Model of `Interpreter::eval_binary`.  Rust `/` on `i64` truncates
toward zero, which is `Int.tdiv`. -/
def evalBinary (l r : Value) (op : BinaryOp) :
    Option (Except RuntimeError Value) :=
  match op with
  | .add =>
    match l, r with
    | .int a, .int b => some (.ok (.int (i64wrap (a + b))))
    | .str a, .str b => some (.ok (.str (a ++ b)))
    | _, _ => some (.error (.type "invalid operands for +"))
  | .sub =>
    match l, r with
    | .int a, .int b => some (.ok (.int (i64wrap (a - b))))
    | _, _ => some (.error (.type "invalid operands for -"))
  | .mul =>
    match l, r with
    | .int a, .int b => some (.ok (.int (i64wrap (a * b))))
    | _, _ => some (.error (.type "invalid operands for *"))
  | .div =>
    match l, r with
    | .int a, .int b =>
      if b = 0 ∨ (a = i64Min ∧ b = -1) then none
      else some (.ok (.int (Int.tdiv a b)))
    | _, _ => some (.error (.type "invalid operands for /"))
  | .lt =>
    match l, r with
    | .int a, .int b => some (.ok (.bool (a < b)))
    | _, _ => some (.error (.type "invalid operands for <"))
  | .eq => some (.ok (.bool (valueEq l r)))
  | .and =>
    match l, r with
    | .bool a, .bool b => some (.ok (.bool (a && b)))
    | _, _ => some (.error (.type "invalid operands for &&"))
  | .or =>
    match l, r with
    | .bool a, .bool b => some (.ok (.bool (a || b)))
    | _, _ => some (.error (.type "invalid operands for ||"))

/-! ### Codegen-side alias resolver (crates/cgen/src/lib.rs
`TypeCtx::resolve_alias`)

The Rust function runs an unbounded `loop` carrying a visited-name set,
and on a top-level `Ref` it calls itself afresh (with a fresh, empty
visited set) on the inner type — so it too is fuelled here. -/

/-- Model of `TypeCtx::resolve_alias` (loop state made explicit: `seen` is
the visited-name set, `current` the type being rewritten). -/
def resolveAliasGo : Nat → List (String × Ty) → List String → Ty → Option Ty
  | 0, _, _, _ => none
  | fuel+1, table, seen, current =>
    match current with
    | .named id =>
      if id ∈ seen then some current
      else
        match lookupAssoc table id with
        | some t => resolveAliasGo fuel table (id :: seen) t
        | none => some current
    | .ref inner =>
      match resolveAliasGo fuel table [] inner with
      | none => none
      | some r => some (.ref r)
    | .record _ => some current

/-- Entry point of `resolve_alias` (fresh visited set). -/
def resolveAliasF (fuel : Nat) (table : List (String × Ty)) (ty : Ty) :
    Option Ty :=
  resolveAliasGo fuel table [] ty

/-! ### Termination measures for the two alias resolvers (claim C9) -/

/-- Whether a type is a top-level reference. -/
def isRefTy : Ty → Bool
  | .ref _ => true
  | _ => false

/-- Alias tables none of whose bodies is a top-level `Ref`; the cgen
resolver's visited set only protects chains of `Named` expansions, and a
`Ref` body restarts it with an empty set. -/
def noRefBodies (table : List (String × Ty)) : Prop :=
  ∀ p ∈ table, isRefTy p.2 = false

/-- How many distinct table keys are not yet in the visited set. -/
def notSeenCount (table : List (String × Ty)) (seen : List String) : Nat :=
  ((table.map Prod.fst).toFinset \ seen.toFinset).card

mutual
/-- Strict upper bound on the ranks of the non-builtin names occurring in
a type (`mu n + 1` for each occurrence of `n`); the checker's
`resolve_type` strictly decreases it whenever an acyclic alias table is
ranked by `mu`. -/
def namedBound (mu : String → Nat) (builtins : List String) : Ty → Nat
  | .named id => if id ∈ builtins then 0 else mu id + 1
  | .ref t => namedBound mu builtins t
  | .record fs => namedBoundFields mu builtins fs
/-- Maximum of `namedBound` over record fields. -/
def namedBoundFields (mu : String → Nat) (builtins : List String) :
    List (String × Ty) → Nat
  | [] => 0
  | (_, t) :: rest =>
    max (namedBound mu builtins t) (namedBoundFields mu builtins rest)
end

/-- Acyclicity of the checker's alias table, witnessed by a rank function:
every non-builtin alias body only mentions non-builtin names of strictly
smaller rank. -/
def rankedAcyclic (st : TCState) (mu : String → Nat) : Prop :=
  ∀ n t, lookupAssoc st.types n = some t → n ∉ st.builtins →
    namedBound mu st.builtins t < mu n + 1

/-! ### Helper lemmas on the map and scope primitives -/

theorem lookupAssoc_updateAssoc_self {α : Type} (m : List (String × α))
    (k : String) (v : α) : lookupAssoc (updateAssoc m k v) k = some v := by
  induction m with
  | nil => simp [updateAssoc, lookupAssoc]
  | cons hd tl ih =>
    obtain ⟨k', v'⟩ := hd
    by_cases h : k' = k
    · simp [updateAssoc, h, lookupAssoc]
    · simp [updateAssoc, h, lookupAssoc, ih]

theorem setMovedGo_lookup {h : String} {m : Bool} :
    ∀ {scopes scopes' : List Scope},
    setMovedGo scopes h m = some scopes' →
    ∀ d b, lookupInScopes scopes h = some (d, b) →
      lookupInScopes scopes' h = some (d, { b with moved := m }) := by
  intro scopes
  induction scopes with
  | nil => intro scopes' hs; simp [setMovedGo] at hs
  | cons s rest ih =>
    intro scopes' hs d b hl
    cases hla : lookupAssoc s.vars h with
    | some info =>
      simp [setMovedGo, hla] at hs
      simp [lookupInScopes, hla] at hl
      subst hs
      obtain ⟨hd, hb⟩ := hl
      simp [lookupInScopes, lookupAssoc_updateAssoc_self]
      subst hd
      subst hb
      simp
    | none =>
      simp [setMovedGo, hla] at hs
      simp [lookupInScopes, hla] at hl
      cases hrec : setMovedGo rest h m with
      | none => simp [hrec] at hs
      | some rest' =>
        simp [hrec] at hs
        subst hs
        simp [lookupInScopes, hla]
        exact ih hrec d b hl

theorem setMovedGo_isSome {h : String} {m : Bool} :
    ∀ {scopes : List Scope} {d b},
    lookupInScopes scopes h = some (d, b) →
    ∃ scopes', setMovedGo scopes h m = some scopes' := by
  intro scopes
  induction scopes with
  | nil => intro d b hl; simp [lookupInScopes] at hl
  | cons s rest ih =>
    intro d b hl
    cases hla : lookupAssoc s.vars h with
    | some info => simp [setMovedGo, hla]
    | none =>
      simp [lookupInScopes, hla] at hl
      obtain ⟨rest', hrest⟩ := ih hl
      simp [setMovedGo, hla, hrest]

theorem resolveGo_move_chars {head : String} {rest : List String} {v : Value} :
    ∀ {scopes scopes' : List ScopeV},
    resolveGo scopes head rest .move = (.ok v, scopes') →
    ∃ b w, findRB scopes head = some b ∧ b.value = some w ∧
      extractFields w rest = .ok v ∧
      findRB scopes' head = some { b with value := none } := by
  intro scopes
  induction scopes with
  | nil => intro scopes' h; simp [resolveGo] at h
  | cons s others ih =>
    intro scopes' h
    cases hla : lookupAssoc s head with
    | none =>
      simp [resolveGo, hla] at h
      cases hrec : resolveGo others head rest .move with
      | mk r others' =>
        rw [hrec] at h
        simp at h
        obtain ⟨hr, hs⟩ := h
        subst hr
        obtain ⟨b, w, h1, h2, h3, h4⟩ := ih hrec
        refine ⟨b, w, ?_, h2, h3, ?_⟩
        · simp [findRB, hla, h1]
        · subst hs; simp [findRB, hla, h4]
    | some b =>
      cases hv : b.value with
      | none => simp [resolveGo, hla, hv] at h
      | some w =>
        cases hex : extractFields w rest with
        | error e => simp [resolveGo, hla, hv, hex] at h
        | ok out =>
          simp [resolveGo, hla, hv, hex] at h
          obtain ⟨hr, hs⟩ := h
          subst hr
          refine ⟨b, w, ?_, hv, hex, ?_⟩
          · simp [findRB, hla]
          · subst hs; simp [findRB, lookupAssoc_updateAssoc_self]

theorem resolveGo_found_none {head : String} {rest : List String}
    {mode : EvalMode} :
    ∀ {scopes : List ScopeV} {b : RBinding},
    findRB scopes head = some b → b.value = none →
    resolveGo scopes head rest mode = (.error (.moved head), scopes) := by
  intro scopes
  induction scopes with
  | nil => intro b h; simp [findRB] at h
  | cons s others ih =>
    intro b h hv
    cases hla : lookupAssoc s head with
    | some b' =>
      simp [findRB, hla] at h
      subst h
      cases mode <;> simp [resolveGo, hla, hv]
    | none =>
      simp [findRB, hla] at h
      simp [resolveGo, hla, ih h hv]

theorem evalPath_move_chars {st : TCState} {p : List String} {i : TyInfo}
    {st' : TCState} (h : evalPath st p .move = .ok (i, st')) :
    ∃ head rest d info ty scopes',
      p = head :: rest ∧
      lookupInScopes st.scopes head = some (d, info) ∧
      walkFields info.ty rest = .ok ty ∧
      info.moved = false ∧
      setMovedGo st.scopes head true = some scopes' ∧
      st' = { st with scopes := scopes' } ∧
      i = { ty := ty, originDepth := info.originDepth, escapable := false } := by
  cases p with
  | nil => simp [evalPath, lookupBinding] at h
  | cons head rest =>
    cases hli : lookupInScopes st.scopes head with
    | none => simp [evalPath, lookupBinding, hli] at h
    | some pr =>
      obtain ⟨d, info⟩ := pr
      cases hwf : walkFields info.ty rest with
      | error e => simp [evalPath, lookupBinding, hli, hwf] at h
      | ok ty =>
        by_cases hm : info.moved
        · simp [evalPath, lookupBinding, hli, hwf, hm] at h
        · cases hsg : setMovedGo st.scopes head true with
          | none => simp [evalPath, lookupBinding, setMoved, hli, hwf, hm, hsg] at h
          | some scopes' =>
            simp [evalPath, lookupBinding, setMoved, hli, hwf, hm, hsg] at h
            obtain ⟨hi, hst⟩ := h
            exact ⟨head, rest, d, info, ty, scopes', rfl, hli, hwf,
              by simpa using hm, hsg, hst.symm, hi.symm⟩

/-- C1: a second `Move` read of the same binding, with no intervening
re-binding or assignment, fails with the moved-value error: in the checker
`eval_path` flags the binding moved on the first `Move` and errors with
`TypeError::Moved` on the second; in the evaluator `resolve_path` takes
the value out of the binding on the first `Move` and errors with
`RuntimeError::Moved` on the second. -/
theorem c1_move_uniqueness :
    (∀ (st : TCState) (p : List String) (i : TyInfo) (st' : TCState),
      evalPath st p .move = .ok (i, st') →
      (∀ d' i', lookupBinding st' p = .ok (d', i') → i'.moved = true) ∧
      evalPath st' p .move = .error (.moved (pathToString p))) ∧
    (∀ (env : Env) (h : String) (rest : List String) (v : Value) (env' : Env),
      resolvePath env (h :: rest) .move = (.ok v, env') →
      (∃ b', findRB env'.scopes h = some b' ∧ b'.value = none) ∧
      resolvePath env' (h :: rest) .move = (.error (.moved h), env')) := by
  constructor
  · intro st p i st' h
    obtain ⟨head, rest, d, info, ty, scopes', hp, hli, hwf, hm, hsg, hst, hi⟩ :=
      evalPath_move_chars h
    subst hp
    subst hst
    have hlook : lookupInScopes scopes' head = some (d, { info with moved := true }) :=
      setMovedGo_lookup hsg d info hli
    have hlb2 : lookupBinding { st with scopes := scopes' } (head :: rest) =
        .ok (d, { ty := ty, mutableFlag := info.mutableFlag, moved := true,
                  originDepth := info.originDepth }) := by
      simp [lookupBinding, hlook, hwf]
    constructor
    · intro d' i' hl
      rw [hlb2] at hl
      simp at hl
      rw [hl.2.symm]
    · simp [evalPath, hlb2]
  · intro env h rest v env' hres
    cases hgo : resolveGo env.scopes h rest .move with
    | mk r scopes' =>
      simp [resolvePath, hgo] at hres
      obtain ⟨hr, henv⟩ := hres
      subst hr
      obtain ⟨b, w, h1, h2, h3, h4⟩ := resolveGo_move_chars hgo
      have hscopes : env'.scopes = scopes' := by rw [← henv]
      constructor
      · refine ⟨{ b with value := none }, ?_, rfl⟩
        rw [hscopes]
        exact h4
      · have h4' : findRB env'.scopes h = some { b with value := none } := by
          rw [hscopes]; exact h4
        have herr := @resolveGo_found_none h rest .move env'.scopes _ h4' rfl
        simp [resolvePath, herr]

/-- C1 witness: a concrete binding read twice under `Move`; the first read
succeeds, the second fails with the moved-value error in both the checker
and the evaluator. -/
theorem c1_move_uniqueness_witness :
    evalPath
      { types := [], funcs := [], builtins := [],
        scopes := [{ vars := [("x", { ty := .named "i32", mutableFlag := false,
                                      moved := true, originDepth := 0 })] }] }
      ["x"] .move = .error (.moved "x") ∧
    resolvePath
      { scopes := [[("x", { mutableFlag := false, value := none })]],
        arena := { buf := [], off := 0 } }
      ["x"] .move =
      (.error (.moved "x"),
       { scopes := [[("x", { mutableFlag := false, value := none })]],
         arena := { buf := [], off := 0 } }) := by
  constructor
  · have h := (c1_move_uniqueness.1
      { types := [], funcs := [], builtins := [],
        scopes := [{ vars := [("x", { ty := .named "i32", mutableFlag := false,
                                      moved := false, originDepth := 0 })] }] }
      ["x"]
      { ty := .named "i32", originDepth := 0, escapable := false }
      { types := [], funcs := [], builtins := [],
        scopes := [{ vars := [("x", { ty := .named "i32", mutableFlag := false,
                                      moved := true, originDepth := 0 })] }] }
      (by rfl)).2
    simpa [pathToString] using h
  · have h := (c1_move_uniqueness.2
      { scopes := [[("x", { mutableFlag := false, value := some (.int 7) })]],
        arena := { buf := [], off := 0 } }
      "x" [] (.int 7)
      { scopes := [[("x", { mutableFlag := false, value := none })]],
        arena := { buf := [], off := 0 } }
      (by rfl)).2
    exact h

/-- C2 counterexample: the claim requires the checker to reject any
escaping value whose *resolved* type contains a `Ref`, but
`ensure_not_escape` tests `type_contains_ref` on the type as stored,
without alias expansion.  With the alias `RefInt := &i32` in the table, a
`TyInfo` carrying the unexpanded name `RefInt` at origin depth 1 is
accepted against target depth 0 even though its escapable flag is set and
its resolved type is `&i32`, which does contain a `Ref` — so the claimed
"if and only if" fails at this input. -/
theorem c2_escape_rule_counterexample :
    ensureNotEscape { ty := .named "RefInt", originDepth := 1,
                      escapable := true } 0 = .ok () ∧
    resolveTypeF 5
      { types := [("RefInt", .ref (.named "i32")), ("i32", .named "i32")],
        funcs := [], scopes := [], builtins := ["i32"] }
      (.named "RefInt") = some (.ok (.ref (.named "i32"))) ∧
    typeContainsRef (.ref (.named "i32")) = true := by
  exact ⟨by rfl, by rfl, by rfl⟩

/-- C2 amended: whenever a checked value's origin depth exceeds the target
depth, `ensure_not_escape` accepts it if and only if its escapable flag is
true and its type *as recorded in the `TyInfo`* (no alias expansion, but
including `Ref`s nested inside record fields) contains no `Ref`; otherwise
it fails with the `Escape` error.  A value whose origin depth does not
exceed the target depth is always accepted. -/
theorem c2_escape_rule :
    (∀ (info : TyInfo) (d : Nat),
      ensureNotEscape info d = .ok () ↔
        (info.originDepth ≤ d ∨
         (info.escapable = true ∧ typeContainsRef info.ty = false))) ∧
    (∀ (info : TyInfo) (d : Nat), ensureNotEscape info d ≠ .ok () →
      ensureNotEscape info d = .error .escape) ∧
    (∀ (info : TyInfo) (d : Nat), info.originDepth ≤ d →
      ensureNotEscape info d = .ok ()) := by
  have hiff : ∀ (info : TyInfo) (d : Nat),
      ensureNotEscape info d = .ok () ↔
        (info.originDepth ≤ d ∨
         (info.escapable = true ∧ typeContainsRef info.ty = false)) := by
    intro info d
    by_cases hgt : info.originDepth > d
    · have hnle : ¬ info.originDepth ≤ d := by omega
      by_cases hesc : info.escapable <;>
        by_cases href : typeContainsRef info.ty <;>
          simp [ensureNotEscape, hgt, hesc, href, hnle]
    · have hle : info.originDepth ≤ d := by omega
      simp [ensureNotEscape, hgt, hle]
  refine ⟨hiff, ?_, ?_⟩
  · intro info d hne
    by_cases hgt : info.originDepth > d
    · by_cases hesc : info.escapable <;>
        by_cases href : typeContainsRef info.ty <;>
          simp [ensureNotEscape, hgt, hesc, href] at hne ⊢
    · simp [ensureNotEscape, hgt] at hne
  · intro info d hle
    exact (hiff info d).mpr (.inl hle)

/-- C2 witness: a value at origin depth 0 bound into depth 1 is accepted;
a reference-typed escapable value at origin depth 2 bound into depth 1 is
rejected with the escape error. -/
theorem c2_escape_rule_witness :
    ensureNotEscape { ty := .named "i32", originDepth := 0,
                      escapable := false } 1 = .ok () ∧
    ensureNotEscape { ty := .ref (.named "i32"), originDepth := 2,
                      escapable := true } 1 = .error .escape := by
  constructor
  · exact c2_escape_rule.2.2 _ 1 (by decide)
  · exact c2_escape_rule.2.1 _ 1 (by simp [ensureNotEscape, typeContainsRef])

theorem checkFuncs_length {fuel : Nat} :
    ∀ {pending : List FuncDecl} {st : TCState} {dacc : List FuncDecl}
      {prog : Bool} {d : List FuncDecl} {p : Bool} {st' : TCState},
    checkFuncs fuel st pending dacc prog = some (.ok (d, p), st') →
    d.length ≤ dacc.length + pending.length ∧
    (prog = false → p = true → d.length < dacc.length + pending.length) := by
  intro pending
  induction pending with
  | nil =>
    intro st dacc prog d p st' h
    simp [checkFuncs] at h
    obtain ⟨⟨hd, hp⟩, _⟩ := h
    subst hd
    subst hp
    exact ⟨by simp, by intro h1 h2; rw [h1] at h2; cases h2⟩
  | cons f rest ih =>
    intro st dacc prog d p st' h
    cases hcf : checkFunc fuel st f with
    | none => simp [checkFuncs, hcf] at h
    | some pr =>
      obtain ⟨r, st1⟩ := pr
      cases r with
      | ok u =>
        rw [show checkFuncs fuel st (f :: rest) dacc prog
              = checkFuncs fuel st1 rest dacc true by simp [checkFuncs, hcf]] at h
        obtain ⟨h1, _⟩ := ih h
        constructor
        · simpa using Nat.le_succ_of_le h1
        · intro _ _
          simp only [List.length_cons]
          omega
      | error e =>
        cases e with
        | unknownFuncReturn n =>
          rw [show checkFuncs fuel st (f :: rest) dacc prog
                = checkFuncs fuel st1 rest (dacc ++ [f]) prog by
              simp [checkFuncs, hcf]] at h
          obtain ⟨h1, h2⟩ := ih h
          simp only [List.length_append, List.length_cons, List.length_nil] at h1 h2 ⊢
          constructor
          · omega
          · intro hpf hpt
            have := h2 hpf hpt
            omega
        | unknownIdent s => simp [checkFuncs, hcf] at h
        | unknownType s => simp [checkFuncs, hcf] at h
        | unknownFunc s => simp [checkFuncs, hcf] at h
        | typeMismatch a b => simp [checkFuncs, hcf] at h
        | arityMismatch a b => simp [checkFuncs, hcf] at h
        | moved s => simp [checkFuncs, hcf] at h
        | notMutable s => simp [checkFuncs, hcf] at h
        | escape => simp [checkFuncs, hcf] at h
        | mainHasParams => simp [checkFuncs, hcf] at h

/-- C3: the worklist fixed point of `check_program`.  (1) A function whose
check fails with the unknown-callee-return-type error is deferred, not
fatal; (2) a failure for any other reason aborts the pass immediately with
that error; (3) after a pass in which at least one function succeeded the
deferred set is retried; (4) a pass with zero successes returns the
cannot-infer-return-type error naming the first deferred function; (5) the
loop always terminates — `pending.length + 1` passes decide the outcome,
so every larger pass budget computes the same result. -/
theorem c3_worklist :
    (∀ (fuel : Nat) (st : TCState) (f : FuncDecl) (rest d : List FuncDecl)
        (prog : Bool) (n : String) (st' : TCState),
      checkFunc fuel st f = some (.error (.unknownFuncReturn n), st') →
      checkFuncs fuel st (f :: rest) d prog
        = checkFuncs fuel st' rest (d ++ [f]) prog) ∧
    (∀ (fuel : Nat) (st : TCState) (f : FuncDecl) (rest d : List FuncDecl)
        (prog : Bool) (e : TypeError) (st' : TCState),
      checkFunc fuel st f = some (.error e, st') →
      (∀ n, e ≠ .unknownFuncReturn n) →
      checkFuncs fuel st (f :: rest) d prog = some (.error e, st')) ∧
    (∀ (fuel lf : Nat) (st st' : TCState) (pending deferred : List FuncDecl),
      pending ≠ [] →
      checkFuncs fuel st pending [] false = some (.ok (deferred, true), st') →
      checkLoopF fuel (lf + 1) st pending = checkLoopF fuel lf st' deferred) ∧
    (∀ (fuel lf : Nat) (st st' : TCState) (pending gs : List FuncDecl)
        (g : FuncDecl),
      pending ≠ [] →
      checkFuncs fuel st pending [] false = some (.ok (g :: gs, false), st') →
      checkLoopF fuel (lf + 1) st pending
        = some (.error (.unknownFuncReturn g.name), st')) ∧
    (∀ (fuel lf : Nat) (st : TCState) (pending : List FuncDecl),
      pending.length < lf →
      checkLoopF fuel lf st pending
        = checkLoopF fuel (pending.length + 1) st pending) := by
  refine ⟨?_, ?_, ?_, ?_, ?_⟩
  · intro fuel st f rest d prog n st' hcf
    simp [checkFuncs, hcf]
  · intro fuel st f rest d prog e st' hcf hne
    cases e with
    | unknownFuncReturn n => exact absurd rfl (hne n)
    | unknownIdent s => simp [checkFuncs, hcf]
    | unknownType s => simp [checkFuncs, hcf]
    | unknownFunc s => simp [checkFuncs, hcf]
    | typeMismatch a b => simp [checkFuncs, hcf]
    | arityMismatch a b => simp [checkFuncs, hcf]
    | moved s => simp [checkFuncs, hcf]
    | notMutable s => simp [checkFuncs, hcf]
    | escape => simp [checkFuncs, hcf]
    | mainHasParams => simp [checkFuncs, hcf]
  · intro fuel lf st st' pending deferred hne hcf
    simp [checkLoopF, List.isEmpty_iff, hne, hcf]
  · intro fuel lf st st' pending gs g hne hcf
    simp [checkLoopF, List.isEmpty_iff, hne, hcf]
  · intro fuel
    intro lf
    induction lf using Nat.strong_induction_on with
    | _ lf ih =>
      intro st pending hlt
      match lf, hlt with
      | l+1, hlt =>
        cases hp : pending with
        | nil => simp [checkLoopF]
        | cons g gs =>
          subst hp
          have hne : (g :: gs) ≠ ([] : List FuncDecl) := by simp
          cases hcfs : checkFuncs fuel st (g :: gs) [] false with
          | none => simp [checkLoopF, hcfs]
          | some pr =>
            obtain ⟨r, st'⟩ := pr
            cases r with
            | error e => simp [checkLoopF, hcfs]
            | ok dp =>
              obtain ⟨d, pflag⟩ := dp
              cases pflag with
              | false => simp [checkLoopF, hcfs]
              | true =>
                have hlen := (checkFuncs_length hcfs).2 rfl rfl
                simp only [List.length_nil, List.length_cons, Nat.zero_add] at hlen
                have hlt' : (g :: gs).length < l + 1 := hlt
                simp only [List.length_cons] at hlt'
                have e1 : checkLoopF fuel (l + 1) st (g :: gs)
                    = checkLoopF fuel l st' d := by
                  simp [checkLoopF, hcfs]
                have e2 : checkLoopF fuel (gs.length + 1 + 1) st (g :: gs)
                    = checkLoopF fuel (gs.length + 1) st' d := by
                  simp [checkLoopF, hcfs]
                have e3 : checkLoopF fuel l st' d
                    = checkLoopF fuel (d.length + 1) st' d := by
                  exact ih l (by omega) st' d (by omega)
                have e4 : checkLoopF fuel (gs.length + 1) st' d
                    = checkLoopF fuel (d.length + 1) st' d := by
                  exact ih (gs.length + 1) (by omega) st' d (by omega)
                rw [e1, e3]
                have : (g :: gs).length + 1 = gs.length + 1 + 1 := by simp
                rw [this, e2, e4]

/-- C3 witness: a `main` declared with a parameter fails its function
check with the main-arity error, which is not the deferral error, so the
pass aborts immediately with it. -/
theorem c3_worklist_witness :
    checkFuncs 0 initialState
      [{ name := "main",
         params := [{ mutableFlag := false, name := "x", ty := .named "i32" }],
         ret := none, body := .lit .unit }] [] false
      = some (.error .mainHasParams, initialState) := by
  exact c3_worklist.2.1 0 initialState
    { name := "main",
      params := [{ mutableFlag := false, name := "x", ty := .named "i32" }],
      ret := none, body := .lit .unit } [] [] false .mainHasParams initialState
    (by rfl) (by intro n h; exact TypeError.noConfusion h)

/-- C4: when both operands of an arithmetic binary expression resolve to
the string scalar `Str` (and not to `i32`), the checker accepts the
expression with result type `Str` for all four operators `+ - * /`; the
evaluator implements string operands only for `+` (concatenation) and
returns a runtime type error for string `-`, `*` and `/`. -/
theorem c4_string_arith :
    (∀ (fuel : Nat) (st s1 s2 : TCState) (l r : Expr) (mode : ValueMode)
        (li ri : TyInfo) (op : BinaryOp),
      checkExpr fuel st l .move = some (.ok li, s1) →
      checkExpr fuel s1 r .move = some (.ok ri, s2) →
      typeEqF fuel s2 li.ty (.named "i32") = some (.ok false) →
      typeEqF fuel s2 li.ty (.named "Str") = some (.ok true) →
      typeEqF fuel s2 ri.ty (.named "Str") = some (.ok true) →
      (op = .add ∨ op = .sub ∨ op = .mul ∨ op = .div) →
      checkExpr (fuel + 1) st (.binary l op r) mode
        = some (.ok { ty := .named "Str",
                      originDepth := max li.originDepth ri.originDepth,
                      escapable := li.escapable && ri.escapable }, s2)) ∧
    (∀ a b : String,
      evalBinary (.str a) (.str b) .add = some (.ok (.str (a ++ b))) ∧
      evalBinary (.str a) (.str b) .sub
        = some (.error (.type "invalid operands for -")) ∧
      evalBinary (.str a) (.str b) .mul
        = some (.error (.type "invalid operands for *")) ∧
      evalBinary (.str a) (.str b) .div
        = some (.error (.type "invalid operands for /"))) := by
  constructor
  · intro fuel st s1 s2 l r mode li ri op h1 h2 h3 h4 h5 hop
    rcases hop with hop | hop | hop | hop <;>
      subst hop <;>
      simp [checkExpr, tbind, h1, h2, h3, h4, h5]
  · intro a b
    exact ⟨rfl, rfl, rfl, rfl⟩

/-- C4 witness: concrete string literals; the checker accepts "a" - "b"
and the evaluator rejects it at run time. -/
theorem c4_string_arith_witness :
    checkExpr 3
      { types := [("i32", .named "i32"), ("Str", .named "Str")],
        funcs := [], scopes := [], builtins := ["i32", "Str"] }
      (.binary (.lit (.str "a")) .sub (.lit (.str "b"))) .move
      = some (.ok { ty := .named "Str", originDepth := 0, escapable := true },
        { types := [("i32", .named "i32"), ("Str", .named "Str")],
          funcs := [], scopes := [], builtins := ["i32", "Str"] }) ∧
    evalBinary (.str "a") (.str "b") .sub
      = some (.error (.type "invalid operands for -")) := by
  constructor
  · exact c4_string_arith.1 2
      { types := [("i32", .named "i32"), ("Str", .named "Str")],
        funcs := [], scopes := [], builtins := ["i32", "Str"] }
      { types := [("i32", .named "i32"), ("Str", .named "Str")],
        funcs := [], scopes := [], builtins := ["i32", "Str"] }
      { types := [("i32", .named "i32"), ("Str", .named "Str")],
        funcs := [], scopes := [], builtins := ["i32", "Str"] }
      (.lit (.str "a")) (.lit (.str "b")) .move
      { ty := .named "Str", originDepth := 0, escapable := true }
      { ty := .named "Str", originDepth := 0, escapable := true }
      .sub (by rfl) (by rfl) (by rfl) (by rfl) (by rfl) (Or.inr (Or.inl rfl))
  · exact (c4_string_arith.2 "a" "b").2.1

theorem setMovedGo_lookup_exists {h : String} {m : Bool} :
    ∀ {scopes sc : List Scope},
    setMovedGo scopes h m = some sc →
    ∃ d b, lookupInScopes scopes h = some (d, b) := by
  intro scopes
  induction scopes with
  | nil => intro sc hs; simp [setMovedGo] at hs
  | cons s rest ih =>
    intro sc hs
    cases hla : lookupAssoc s.vars h with
    | some info => exact ⟨rest.length, info, by simp [lookupInScopes, hla]⟩
    | none =>
      simp [setMovedGo, hla] at hs
      cases hrec : setMovedGo rest h m with
      | none => simp [hrec] at hs
      | some rest' =>
        obtain ⟨d, b, hl⟩ := ih hrec
        exact ⟨d, b, by simp [lookupInScopes, hla, hl]⟩

theorem assignGo_present {head : String} {rest : List String} {v : Value} :
    ∀ {scopes scopes' : List ScopeV},
    assignGo scopes head rest v = .ok scopes' →
    ∃ b', findRB scopes' head = some b' ∧ b'.value.isSome = true := by
  intro scopes
  induction scopes with
  | nil => intro scopes' h; simp [assignGo] at h
  | cons s others ih =>
    intro scopes' h
    cases hla : lookupAssoc s head with
    | none =>
      simp [assignGo, hla] at h
      cases hrec : assignGo others head rest v with
      | error e => simp [hrec] at h
      | ok others' =>
        simp [hrec] at h
        obtain ⟨b', h1, h2⟩ := ih hrec
        exact ⟨b', by rw [← h]; simp [findRB, hla, h1], h2⟩
    | some b =>
      by_cases hm : b.mutableFlag
      · cases hv : b.value with
        | none => simp [assignGo, hla, hm, hv] at h
        | some slot =>
          by_cases hrest : rest = []
          · subst hrest
            simp [assignGo, hla, hm, hv] at h
            refine ⟨{ b with value := some v }, ?_, rfl⟩
            rw [← h]
            simp [findRB, lookupAssoc_updateAssoc_self, hm]
          · cases hsf : setField slot rest v with
            | error e =>
              simp [assignGo, hla, hm, hv, List.isEmpty_iff, hrest, hsf] at h
            | ok slot' =>
              simp [assignGo, hla, hm, hv, List.isEmpty_iff, hrest, hsf] at h
              refine ⟨{ b with value := some slot' }, ?_, rfl⟩
              rw [← h]
              simp [findRB, lookupAssoc_updateAssoc_self, hm]
      · simp [assignGo, hla, hm] at h

theorem assignGo_moved {head : String} {rest : List String} {v : Value} :
    ∀ {scopes : List ScopeV} {b : RBinding},
    findRB scopes head = some b → b.mutableFlag = true → b.value = none →
    assignGo scopes head rest v = .error (.moved head) := by
  intro scopes
  induction scopes with
  | nil => intro b h; simp [findRB] at h
  | cons s others ih =>
    intro b h hm hv
    cases hla : lookupAssoc s head with
    | some b' =>
      simp [findRB, hla] at h
      subst h
      simp [assignGo, hla, hm, hv]
    | none =>
      simp [findRB, hla] at h
      simp [assignGo, hla, ih h hm hv]

theorem assignGo_whole {head : String} {v : Value} :
    ∀ {scopes : List ScopeV} {b : RBinding} {w : Value},
    findRB scopes head = some b → b.mutableFlag = true → b.value = some w →
    ∃ scopes', assignGo scopes head [] v = .ok scopes' ∧
      findRB scopes' head = some { b with value := some v } := by
  intro scopes
  induction scopes with
  | nil => intro b w h; simp [findRB] at h
  | cons s others ih =>
    intro b w h hm hv
    cases hla : lookupAssoc s head with
    | some b' =>
      have hb : b' = b := by simpa [findRB, hla] using h
      refine ⟨updateAssoc s head { b with value := some v } :: others, ?_, ?_⟩
      · simp [assignGo, hla, hb, hm, hv]
      · simp [findRB, lookupAssoc_updateAssoc_self, hb]
    | none =>
      simp [findRB, hla] at h
      obtain ⟨others', h1, h2⟩ := ih h hm hv
      exact ⟨s :: others', by simp [assignGo, hla, h1], by simp [findRB, hla, h2]⟩

/-- C5 counterexample: the claim says an assignment to a previously
moved-out binding succeeds in the evaluator too, but `Env::assign_path`
requires the binding to still hold a value before any branch on the path
shape — assigning to a moved mutable binding fails at run time with
`RuntimeError::Moved`. -/
theorem c5_assign_counterexample :
    assignPath
      { scopes := [[("x", { mutableFlag := true, value := none })]],
        arena := { buf := [], off := 0 } }
      ["x"] (.int 1) = .error (.moved "x") := by
  rfl

/-- C5 amended: in the checker, an assignment whose target is a mutable
binding and whose value passes the type and escape checks succeeds and
leaves the binding not-moved — even when the binding was previously moved
out, since `check_assign` never consults the moved flag.  In the
evaluator, an assignment requires the binding to still HOLD a value:
a successful assignment always leaves the binding present, a moved-out
mutable binding is refused with `RuntimeError::Moved`, and a whole-binding
assignment to a present mutable binding succeeds and stores the new
value. -/
theorem c5_assign :
    (∀ (fuel : Nat) (st s1 st2 : TCState) (target : List String)
        (valueE : Expr) (d : Nat) (info : BindingInfo) (vi : TyInfo),
      lookupBinding st target = .ok (d, info) →
      info.mutableFlag = true →
      checkExpr fuel st valueE .move = some (.ok vi, s1) →
      ensureNotEscape vi d = .ok () →
      ensureTypeF fuel s1 info.ty vi.ty = some (.ok ()) →
      setMoved s1 target false = .ok st2 →
      checkAssign (fuel + 1) st target valueE = some (.ok (), st2) ∧
      (∀ d' i', lookupBinding st2 target = .ok (d', i') → i'.moved = false)) ∧
    (∀ (env env' : Env) (h : String) (rest : List String) (v : Value),
      assignPath env (h :: rest) v = .ok env' →
      ∃ b', findRB env'.scopes h = some b' ∧ b'.value.isSome = true) ∧
    (∀ (env : Env) (h : String) (rest : List String) (v : Value)
        (b : RBinding),
      findRB env.scopes h = some b → b.mutableFlag = true → b.value = none →
      assignPath env (h :: rest) v = .error (.moved h)) ∧
    (∀ (env : Env) (h : String) (v w : Value) (b : RBinding),
      findRB env.scopes h = some b → b.mutableFlag = true →
      b.value = some w →
      ∃ env', assignPath env [h] v = .ok env' ∧
        findRB env'.scopes h = some { b with value := some v }) := by
  refine ⟨?_, ?_, ?_, ?_⟩
  · intro fuel st s1 st2 target valueE d info vi hlb hmut hck hesc hety hsm
    constructor
    · simp [checkAssign, hlb, hmut, tbind, hck, hesc, pbind, hety, hsm]
    · intro d' i' hl
      cases target with
      | nil => simp [setMoved] at hsm
      | cons head rest =>
        cases hsg : setMovedGo s1.scopes head false with
        | none => simp [setMoved, hsg] at hsm
        | some sc =>
          simp [setMoved, hsg] at hsm
          obtain ⟨d0, b0, hl0⟩ := setMovedGo_lookup_exists hsg
          have hl1 := setMovedGo_lookup hsg d0 b0 hl0
          rw [← hsm] at hl
          cases hwf : walkFields b0.ty rest with
          | error e => simp [lookupBinding, hl1, hwf] at hl
          | ok ty0 =>
            simp [lookupBinding, hl1, hwf] at hl
            rw [← hl.2]
  · intro env env' h rest v hassign
    cases hgo : assignGo env.scopes h rest v with
    | error e => simp [assignPath, hgo] at hassign
    | ok scopes' =>
      simp [assignPath, hgo] at hassign
      obtain ⟨b', h1, h2⟩ := assignGo_present hgo
      refine ⟨b', ?_, h2⟩
      rw [← hassign]
      simpa using h1
  · intro env h rest v b hf hm hv
    simp [assignPath, assignGo_moved hf hm hv]
  · intro env h v w b hf hm hv
    obtain ⟨scopes', h1, h2⟩ := assignGo_whole hf hm hv
    exact ⟨{ env with scopes := scopes' }, by simp [assignPath, h1], h2⟩

/-- C5 witness: the checker refreshes a moved-out mutable binding back to
present on assignment; the evaluator refuses the same assignment because
the binding no longer holds a value. -/
theorem c5_assign_witness :
    checkAssign 3
      { types := [("i32", .named "i32")], funcs := [], builtins := ["i32"],
        scopes :=
          [{ vars :=
              [("x", { ty := .named "i32", mutableFlag := true,
                       moved := true, originDepth := 0 })] }] }
      ["x"] (.lit (.int 1))
      = some (.ok (),
        { types := [("i32", .named "i32")], funcs := [], builtins := ["i32"],
          scopes :=
            [{ vars :=
                [("x", { ty := .named "i32", mutableFlag := true,
                         moved := false, originDepth := 0 })] }] }) ∧
    assignPath
      { scopes := [[("y", { mutableFlag := true, value := none })]],
        arena := { buf := [], off := 0 } }
      ["y"] (.int 2) = .error (.moved "y") := by
  constructor
  · exact (c5_assign.1 2
      { types := [("i32", .named "i32")], funcs := [], builtins := ["i32"],
        scopes :=
          [{ vars :=
              [("x", { ty := .named "i32", mutableFlag := true,
                       moved := true, originDepth := 0 })] }] }
      { types := [("i32", .named "i32")], funcs := [], builtins := ["i32"],
        scopes :=
          [{ vars :=
              [("x", { ty := .named "i32", mutableFlag := true,
                       moved := true, originDepth := 0 })] }] }
      { types := [("i32", .named "i32")], funcs := [], builtins := ["i32"],
        scopes :=
          [{ vars :=
              [("x", { ty := .named "i32", mutableFlag := true,
                       moved := false, originDepth := 0 })] }] }
      ["x"] (.lit (.int 1)) 0
      { ty := .named "i32", mutableFlag := true, moved := true,
        originDepth := 0 }
      { ty := .named "i32", originDepth := 0, escapable := true }
      (by rfl) (by rfl) (by rfl) (by rfl) (by rfl) (by rfl)).1
  · exact c5_assign.2.2.1
      { scopes := [[("y", { mutableFlag := true, value := none })]],
        arena := { buf := [], off := 0 } }
      "y" [] (.int 2) { mutableFlag := true, value := none }
      (by rfl) (by rfl) (by rfl)

theorem resolveGo_cb_chars {head : String} {rest : List String} {v : Value}
    {m : EvalMode} (hm : m = .copy ∨ m = .borrow) :
    ∀ {scopes scopes2 : List ScopeV},
    resolveGo scopes head rest m = (.ok v, scopes2) →
    scopes2 = scopes ∧ ∃ b w, findRB scopes head = some b ∧
      b.value = some w ∧ extractFields w rest = .ok v := by
  intro scopes
  induction scopes with
  | nil => intro scopes2 h; rcases hm with hm | hm <;> subst hm <;> simp [resolveGo] at h
  | cons s others ih =>
    intro scopes2 h
    cases hla : lookupAssoc s head with
    | none =>
      rcases hm with hm' | hm' <;> subst hm' <;>
        [skip; skip] <;>
        · simp [resolveGo, hla] at h
          cases hrec : resolveGo others head rest _ with
          | mk r others' =>
            rw [hrec] at h
            simp at h
            obtain ⟨hr, hs⟩ := h
            subst hr
            obtain ⟨hs2, b, w, h1, h2, h3⟩ := ih hrec
            subst hs2
            exact ⟨by rw [← hs], b, w, by simp [findRB, hla, h1], h2, h3⟩
    | some b =>
      cases hv : b.value with
      | none =>
        rcases hm with hm' | hm' <;> subst hm' <;> simp [resolveGo, hla, hv] at h
      | some w =>
        cases hex : extractFields w rest with
        | error e =>
          rcases hm with hm' | hm' <;> subst hm' <;>
            simp [resolveGo, hla, hv, hex] at h
        | ok out =>
          rcases hm with hm' | hm' <;> subst hm' <;>
            · simp [resolveGo, hla, hv, hex] at h
              obtain ⟨hr, hs⟩ := h
              subst hr
              exact ⟨hs.symm, b, w, by simp [findRB, hla], hv, hex⟩

theorem resolveGo_move_of_present {head : String} {rest : List String}
    {v : Value} :
    ∀ {scopes : List ScopeV} {b : RBinding} {w : Value},
    findRB scopes head = some b → b.value = some w →
    extractFields w rest = .ok v →
    ∃ scopes', resolveGo scopes head rest .move = (.ok v, scopes') := by
  intro scopes
  induction scopes with
  | nil => intro b w h; simp [findRB] at h
  | cons s others ih =>
    intro b w h hv hex
    cases hla : lookupAssoc s head with
    | some b' =>
      have hb : b' = b := by simpa [findRB, hla] using h
      exact ⟨updateAssoc s head { b' with value := none } :: others,
        by simp [resolveGo, hla, hb, hv, hex]⟩
    | none =>
      simp [findRB, hla] at h
      obtain ⟨others', hgo⟩ := ih h hv hex
      exact ⟨s :: others', by simp [resolveGo, hla, hgo]⟩

/-- C6: a `Copy` or `Borrow` read of a present binding never marks it
moved: in the checker `eval_path` leaves the state unchanged, and in the
evaluator `resolve_path` leaves the environment (including the stored
value) unchanged, so a subsequent `Move` read of the same path succeeds
with the same result. -/
theorem c6_copy_borrow :
    (∀ (st st' : TCState) (p : List String) (m : ValueMode) (i : TyInfo),
      (m = .copy ∨ m = .borrow) →
      evalPath st p m = .ok (i, st') →
      st' = st ∧ ∃ st2, evalPath st p .move = .ok (i, st2)) ∧
    (∀ (env env' : Env) (p : List String) (m : EvalMode) (v : Value),
      (m = .copy ∨ m = .borrow) →
      resolvePath env p m = (.ok v, env') →
      env' = env ∧ ∃ env2, resolvePath env p .move = (.ok v, env2)) := by
  constructor
  · intro st st' p m i hm h
    cases hlb : lookupBinding st p with
    | error e =>
      rcases hm with hm' | hm' <;> subst hm' <;> simp [evalPath, hlb] at h
    | ok pr =>
      obtain ⟨d, info⟩ := pr
      by_cases hmv : info.moved
      · rcases hm with hm' | hm' <;> subst hm' <;>
          simp [evalPath, hlb, hmv] at h
      · have hok : evalPath st p m = .ok ({ ty := info.ty, originDepth := info.originDepth, escapable := false }, st) := by
          rcases hm with hm' | hm' <;> subst hm' <;> simp [evalPath, hlb, hmv]
        rw [hok] at h
        simp at h
        obtain ⟨hi, hst⟩ := h
        refine ⟨hst.symm, ?_⟩
        have hi' : i = { ty := info.ty, originDepth := info.originDepth, escapable := false } := hi.symm
        cases p with
        | nil => simp [lookupBinding] at hlb
        | cons head rest =>
          cases hli : lookupInScopes st.scopes head with
          | none => simp [lookupBinding, hli] at hlb
          | some pr2 =>
            obtain ⟨d0, b0⟩ := pr2
            obtain ⟨scopes', hsg⟩ :=
              @setMovedGo_isSome head true st.scopes d0 b0 hli
            exact ⟨{ st with scopes := scopes' },
              by simp [evalPath, hlb, hmv, setMoved, hsg, hi']⟩
  · intro env env' p m v hm h
    cases p with
    | nil =>
      rcases hm with hm' | hm' <;> subst hm' <;> simp [resolvePath] at h
    | cons head rest =>
      cases hgo : resolveGo env.scopes head rest m with
      | mk r scopes2 =>
        simp [resolvePath, hgo] at h
        obtain ⟨hr, henv⟩ := h
        subst hr
        obtain ⟨hs2, b, w, h1, h2, h3⟩ := resolveGo_cb_chars hm hgo
        subst hs2
        constructor
        · rw [← henv]
        · obtain ⟨scopes', hmv⟩ := resolveGo_move_of_present h1 h2 h3
          exact ⟨{ env with scopes := scopes' },
            by simp [resolvePath, hmv]⟩

/-- C6 witness: a concrete `copy` then `Move` of the same binding, in the
checker and the evaluator. -/
theorem c6_copy_borrow_witness :
    (∃ st2, evalPath
      { types := [], funcs := [], builtins := [],
        scopes :=
          [{ vars :=
              [("x", { ty := .named "i32", mutableFlag := false,
                       moved := false, originDepth := 0 })] }] }
      ["x"] .move
      = .ok ({ ty := .named "i32", originDepth := 0, escapable := false },
             st2)) ∧
    (∃ env2, resolvePath
      { scopes := [[("x", { mutableFlag := false, value := some (.int 7) })]],
        arena := { buf := [], off := 0 } }
      ["x"] .move = (.ok (.int 7), env2)) := by
  constructor
  · exact (c6_copy_borrow.1
      { types := [], funcs := [], builtins := [],
        scopes :=
          [{ vars :=
              [("x", { ty := .named "i32", mutableFlag := false,
                       moved := false, originDepth := 0 })] }] }
      { types := [], funcs := [], builtins := [],
        scopes :=
          [{ vars :=
              [("x", { ty := .named "i32", mutableFlag := false,
                       moved := false, originDepth := 0 })] }] }
      ["x"] .copy
      { ty := .named "i32", originDepth := 0, escapable := false }
      (Or.inl rfl) (by rfl)).2
  · exact (c6_copy_borrow.2
      { scopes := [[("x", { mutableFlag := false, value := some (.int 7) })]],
        arena := { buf := [], off := 0 } }
      { scopes := [[("x", { mutableFlag := false, value := some (.int 7) })]],
        arena := { buf := [], off := 0 } }
      ["x"] .copy (.int 7) (Or.inl rfl) (by rfl)).2

/-- C7 counterexample: after a `Move` read of the dotted path `x.a`, the
binding `x` does NOT still hold the record's remaining fields — the whole
record was taken out of the binding (`binding.value.take()`), so even a
`Copy` read of the sibling field `x.b` now fails with the moved-value
error. -/
theorem c7_field_move_counterexample :
    resolvePath
      { scopes := [[("x", { mutableFlag := false,
                            value := some (.record [("a", .int 0), ("b", .int 1)]) })]],
        arena := { buf := [], off := 0 } }
      ["x", "a"] .move
      = (.ok (.int 0),
         { scopes := [[("x", { mutableFlag := false, value := none })]],
           arena := { buf := [], off := 0 } }) ∧
    resolvePath
      { scopes := [[("x", { mutableFlag := false, value := none })]],
        arena := { buf := [], off := 0 } }
      ["x", "b"] .copy
      = (.error (.moved "x"),
         { scopes := [[("x", { mutableFlag := false, value := none })]],
           arena := { buf := [], off := 0 } }) := by
  exact ⟨by rfl, by rfl⟩

/-- C7 amended: in the evaluator, a `Move` read of a dotted path `p.x`
takes the WHOLE value out of binding `p` (leaving the binding moved, its
other fields gone with it) and extracts the field from the removed record,
while a `Copy` or `Borrow` read of `p.x` returns the field from a clone
and leaves the environment unchanged.  This matches the checker's
`set_moved`, which flags the whole binding for a dotted move. -/
theorem c7_field_move :
    (∀ (env env' : Env) (h f : String) (rest : List String) (v : Value),
      resolvePath env (h :: f :: rest) .move = (.ok v, env') →
      ∃ b w, findRB env.scopes h = some b ∧ b.value = some w ∧
        extractFields w (f :: rest) = .ok v ∧
        findRB env'.scopes h = some { b with value := none }) ∧
    (∀ (env env' : Env) (p : List String) (m : EvalMode) (v : Value),
      (m = .copy ∨ m = .borrow) →
      resolvePath env p m = (.ok v, env') → env' = env) := by
  constructor
  · intro env env' h f rest v hres
    cases hgo : resolveGo env.scopes h (f :: rest) .move with
    | mk r scopes' =>
      simp [resolvePath, hgo] at hres
      obtain ⟨hr, henv⟩ := hres
      subst hr
      obtain ⟨b, w, h1, h2, h3, h4⟩ := resolveGo_move_chars hgo
      refine ⟨b, w, h1, h2, h3, ?_⟩
      rw [← henv]
      simpa using h4
  · intro env env' p m v hm hres
    cases p with
    | nil =>
      rcases hm with hm' | hm' <;> subst hm' <;> simp [resolvePath] at hres
    | cons head rest =>
      cases hgo : resolveGo env.scopes head rest m with
      | mk r scopes2 =>
        simp [resolvePath, hgo] at hres
        obtain ⟨hr, henv⟩ := hres
        subst hr
        obtain ⟨hs2, _⟩ := resolveGo_cb_chars hm hgo
        subst hs2
        rw [← henv]

/-- C7 witness: the concrete record binding of the counterexample run
through the amended characterization. -/
theorem c7_field_move_witness :
    ∃ b w,
      findRB [[("x", { mutableFlag := false,
                       value := some (.record [("a", .int 0), ("b", .int 1)]) })]]
          "x" = some b ∧
      b.value = some w ∧
      extractFields w ["a"] = .ok (.int 0) ∧
      findRB [[("x", { mutableFlag := false, value := none })]] "x"
        = some { b with value := none } := by
  exact c7_field_move.1
    { scopes := [[("x", { mutableFlag := false,
                          value := some (.record [("a", .int 0), ("b", .int 1)]) })]],
      arena := { buf := [], off := 0 } }
    { scopes := [[("x", { mutableFlag := false, value := none })]],
      arena := { buf := [], off := 0 } }
    "x" "a" [] (.int 0) (by rfl)

/-- C8: the claim (and §7 of the spec) promises that failure is always a
typed error value and never a crash, but `Interpreter::eval_binary`
computes `a / b` with the raw Rust `i64` division, which panics when the
divisor is 0 (and on `i64::MIN / -1`) instead of returning a
`RuntimeError` — modelled as the `none` outcome, distinct from every typed
error.  A non-zero divisor yields the truncated quotient as claimed. -/
theorem c8_div_by_zero_panics :
    evalBinary (.int 1) (.int 0) .div = none ∧
    evalBinary (.int i64Min) (.int (-1)) .div = none ∧
    evalBinary (.int 7) (.int 2) .div = some (.ok (.int 3)) ∧
    evalBinary (.int (-7)) (.int 2) .div = some (.ok (.int (-3))) := by
  exact ⟨by rfl, by norm_num [evalBinary], by rfl, by rfl⟩

/-! ### Claim C9: termination of the two alias resolvers -/

theorem Ty.myInduction (motive : Ty → Prop)
    (hn : ∀ s, motive (.named s))
    (hr : ∀ t, motive t → motive (.ref t))
    (hrec : ∀ fs, (∀ p ∈ fs, motive p.2) → motive (.record fs)) :
    ∀ t, motive t := by
  intro t
  refine sizeTy.induct motive (fun fs => ∀ p ∈ fs, motive p.2) hn hr hrec ?_ ?_ t
  · intro p hp; cases hp
  · intro fst t rest h1 h2 p hp
    cases hp with
    | head => exact h1
    | tail _ h => exact h2 p h

theorem lookupAssoc_mem_pair {α : Type} :
    ∀ {m : List (String × α)} {k : String} {v : α},
    lookupAssoc m k = some v → (k, v) ∈ m := by
  intro m
  induction m with
  | nil => intro k v h; simp [lookupAssoc] at h
  | cons hd tl ih =>
    intro k v h
    obtain ⟨k', v'⟩ := hd
    by_cases hk : k' = k
    · subst hk
      simp [lookupAssoc] at h
      subst h
      exact List.mem_cons_self _ _
    · simp [lookupAssoc, hk] at h
      exact List.mem_cons_of_mem _ (ih h)

theorem lookupAssoc_mem_keys {α : Type} {m : List (String × α)} {k : String}
    {v : α} (h : lookupAssoc m k = some v) : k ∈ m.map Prod.fst := by
  have := lookupAssoc_mem_pair h
  exact List.mem_map.mpr ⟨(k, v), this, rfl⟩

theorem notSeenCount_lt {table : List (String × Ty)} {seen : List String}
    {id : String} (hmem : id ∈ table.map Prod.fst) (hns : id ∉ seen) :
    notSeenCount table (id :: seen) < notSeenCount table seen := by
  unfold notSeenCount
  rw [List.toFinset_cons]
  have hid : id ∈ (table.map Prod.fst).toFinset \ seen.toFinset := by
    simp [List.mem_toFinset, hmem, hns]
  have heq : (table.map Prod.fst).toFinset \ insert id seen.toFinset
      = ((table.map Prod.fst).toFinset \ seen.toFinset).erase id := by
    ext x
    simp only [Finset.mem_sdiff, Finset.mem_insert, Finset.mem_erase,
      List.mem_toFinset]
    tauto
  rw [heq]
  exact Finset.card_erase_lt_of_mem hid

theorem resolveAliasGo_term {table : List (String × Ty)}
    (hnr : noRefBodies table) :
    ∀ (fuel : Nat) (seen : List String) (cur : Ty), isRefTy cur = false →
    notSeenCount table seen < fuel →
    (resolveAliasGo fuel table seen cur).isSome = true := by
  intro fuel
  induction fuel with
  | zero => intro seen cur h1 h2; omega
  | succ f ih =>
    intro seen cur h1 h2
    cases cur with
    | ref inner => simp [isRefTy] at h1
    | record fs => simp [resolveAliasGo]
    | named id =>
      by_cases hseen : id ∈ seen
      · simp [resolveAliasGo, hseen]
      · cases hla : lookupAssoc table id with
        | none => simp [resolveAliasGo, hseen, hla]
        | some t =>
          have ht : isRefTy t = false := hnr (id, t) (lookupAssoc_mem_pair hla)
          have hdec := notSeenCount_lt (lookupAssoc_mem_keys hla) hseen
          have hrec := ih (id :: seen) t ht (by omega)
          simp [resolveAliasGo, hseen, hla]
          exact hrec

theorem resolveTypeF_mono :
    ∀ (fuel : Nat),
    (∀ (st : TCState) (ty : Ty) (r : Except TypeError Ty),
      resolveTypeF fuel st ty = some r → resolveTypeF (fuel + 1) st ty = some r) ∧
    (∀ (st : TCState) (fs : List (String × Ty))
        (r : Except TypeError (List (String × Ty))),
      resolveFieldsF fuel st fs = some r →
      resolveFieldsF (fuel + 1) st fs = some r) := by
  intro fuel
  induction fuel with
  | zero =>
    constructor
    · intro st ty r h; simp [resolveTypeF] at h
    · intro st fs r h; simp [resolveFieldsF] at h
  | succ f ih =>
    obtain ⟨ihT, ihF⟩ := ih
    constructor
    · intro st ty r h
      cases ty with
      | named id =>
        cases hla : lookupAssoc st.types id with
        | none => simp [resolveTypeF, hla] at h ⊢; exact h
        | some t =>
          by_cases hb : id ∈ st.builtins
          · simp [resolveTypeF, hla, hb] at h ⊢; exact h
          · simp [resolveTypeF, hla, hb] at h ⊢
            cases hrec : resolveTypeF f st t with
            | none => rw [hrec] at h; simp at h
            | some x => rw [hrec] at h; exact h ▸ ihT st t x hrec
      | ref inner =>
        have e1 : resolveTypeF (f + 1) st (Ty.ref inner)
            = match resolveTypeF f st inner with
              | none => none
              | some (.error e) => some (.error e)
              | some (.ok r) => some (.ok (.ref r)) := rfl
        have e2 : resolveTypeF (f + 1 + 1) st (Ty.ref inner)
            = match resolveTypeF (f + 1) st inner with
              | none => none
              | some (.error e) => some (.error e)
              | some (.ok r) => some (.ok (.ref r)) := rfl
        cases hrec : resolveTypeF f st inner with
        | none => rw [e1, hrec] at h; simp at h
        | some x =>
          rw [e1, hrec] at h
          rw [e2, ihT st inner x hrec]
          exact h
      | record fs =>
        have e1 : resolveTypeF (f + 1) st (Ty.record fs)
            = match resolveFieldsF f st fs with
              | none => none
              | some (.error e) => some (.error e)
              | some (.ok out) => some (.ok (.record out)) := rfl
        have e2 : resolveTypeF (f + 1 + 1) st (Ty.record fs)
            = match resolveFieldsF (f + 1) st fs with
              | none => none
              | some (.error e) => some (.error e)
              | some (.ok out) => some (.ok (.record out)) := rfl
        cases hrec : resolveFieldsF f st fs with
        | none => rw [e1, hrec] at h; simp at h
        | some x =>
          rw [e1, hrec] at h
          rw [e2, ihF st fs x hrec]
          exact h
    · intro st fs r h
      cases fs with
      | nil => simp [resolveFieldsF] at h ⊢; exact h
      | cons hd tl =>
        obtain ⟨nm, t⟩ := hd
        have e1 : resolveFieldsF (f + 1) st ((nm, t) :: tl)
            = match resolveTypeF f st t with
              | none => none
              | some (.error e) => some (.error e)
              | some (.ok rt) =>
                match resolveFieldsF f st tl with
                | none => none
                | some (.error e) => some (.error e)
                | some (.ok out) => some (.ok ((nm, rt) :: out)) := rfl
        have e2 : resolveFieldsF (f + 1 + 1) st ((nm, t) :: tl)
            = match resolveTypeF (f + 1) st t with
              | none => none
              | some (.error e) => some (.error e)
              | some (.ok rt) =>
                match resolveFieldsF (f + 1) st tl with
                | none => none
                | some (.error e) => some (.error e)
                | some (.ok out) => some (.ok ((nm, rt) :: out)) := rfl
        cases hrec : resolveTypeF f st t with
        | none => rw [e1, hrec] at h; simp at h
        | some x =>
          cases x with
          | error e =>
            rw [e1, hrec] at h
            rw [e2, ihT st t _ hrec]
            exact h
          | ok rt =>
            cases hrec2 : resolveFieldsF f st tl with
            | none => rw [e1, hrec, hrec2] at h; simp at h
            | some y =>
              rw [e1, hrec, hrec2] at h
              rw [e2, ihT st t _ hrec, ihF st tl y hrec2]
              exact h

theorem resolveTypeF_mono_le {st : TCState} {ty : Ty}
    {r : Except TypeError Ty} {f f' : Nat} (hle : f ≤ f')
    (h : resolveTypeF f st ty = some r) : resolveTypeF f' st ty = some r := by
  induction f' with
  | zero =>
    have : f = 0 := by omega
    subst this
    exact h
  | succ g ih =>
    by_cases hf : f = g + 1
    · subst hf; exact h
    · exact (resolveTypeF_mono g).1 st ty r (ih (by omega))

theorem resolveFieldsF_mono_le {st : TCState} {fs : List (String × Ty)}
    {r : Except TypeError (List (String × Ty))} {f f' : Nat} (hle : f ≤ f')
    (h : resolveFieldsF f st fs = some r) : resolveFieldsF f' st fs = some r := by
  induction f' with
  | zero =>
    have : f = 0 := by omega
    subst this
    exact h
  | succ g ih =>
    by_cases hf : f = g + 1
    · subst hf; exact h
    · exact (resolveTypeF_mono g).2 st fs r (ih (by omega))

theorem namedBoundFields_ge {mu : String → Nat} {builtins : List String} :
    ∀ {fs : List (String × Ty)} {p : String × Ty}, p ∈ fs →
    namedBound mu builtins p.2 ≤ namedBoundFields mu builtins fs := by
  intro fs
  induction fs with
  | nil => intro p hp; cases hp
  | cons hd tl ih =>
    intro p hp
    obtain ⟨nm, t⟩ := hd
    cases hp with
    | head => simp [namedBoundFields]
    | tail _ hp' =>
      have := ih hp'
      simp only [namedBoundFields]
      omega

theorem resolveFieldsF_term {st : TCState} :
    ∀ {fs : List (String × Ty)},
    (∀ p ∈ fs, ∃ f r, resolveTypeF f st p.2 = some r) →
    ∃ F r, resolveFieldsF F st fs = some r := by
  intro fs
  induction fs with
  | nil => intro _; exact ⟨1, .ok [], by simp [resolveFieldsF]⟩
  | cons hd tl ih =>
    intro h
    obtain ⟨nm, t⟩ := hd
    obtain ⟨f1, r1, h1⟩ := h (nm, t) (List.mem_cons_self _ _)
    obtain ⟨f2, r2, h2⟩ := ih (fun p hp => h p (List.mem_cons_of_mem _ hp))
    have h1' := resolveTypeF_mono_le (Nat.le_max_left f1 f2) h1
    have h2' := resolveFieldsF_mono_le (Nat.le_max_right f1 f2) h2
    have e : resolveFieldsF (max f1 f2 + 1) st ((nm, t) :: tl)
        = match resolveTypeF (max f1 f2) st t with
          | none => none
          | some (.error e) => some (.error e)
          | some (.ok rt) =>
            match resolveFieldsF (max f1 f2) st tl with
            | none => none
            | some (.error e) => some (.error e)
            | some (.ok out) => some (.ok ((nm, rt) :: out)) := rfl
    cases r1 with
    | error er => exact ⟨max f1 f2 + 1, .error er, by rw [e, h1']⟩
    | ok rt =>
      cases r2 with
      | error er => exact ⟨max f1 f2 + 1, .error er, by rw [e, h1', h2']⟩
      | ok out =>
        exact ⟨max f1 f2 + 1, .ok ((nm, rt) :: out), by rw [e, h1', h2']⟩

theorem resolveTypeF_term {st : TCState} {mu : String → Nat}
    (hacy : rankedAcyclic st mu) :
    ∀ ty, ∃ f r, resolveTypeF f st ty = some r := by
  have main : ∀ n ty, namedBound mu st.builtins ty ≤ n →
      ∃ f r, resolveTypeF f st ty = some r := by
    intro n
    induction n using Nat.strong_induction_on with
    | _ n ihn =>
      intro ty
      induction ty using Ty.myInduction with
      | hn id =>
        intro hbound
        cases hla : lookupAssoc st.types id with
        | none =>
          exact ⟨1, .error (.unknownType id), by simp [resolveTypeF, hla]⟩
        | some t =>
          by_cases hb : id ∈ st.builtins
          · exact ⟨1, .ok t, by simp [resolveTypeF, hla, hb]⟩
          · have hlt : namedBound mu st.builtins t < mu id + 1 := hacy id t hla hb
            have hle : mu id + 1 ≤ n := by
              simpa [namedBound, hb] using hbound
            obtain ⟨f, r, hr⟩ :=
              ihn (namedBound mu st.builtins t) (by omega) t (le_refl _)
            refine ⟨f + 1, r, ?_⟩
            simp [resolveTypeF, hla, hb]
            exact hr
      | hr inner ihInner =>
        intro hbound
        have hinner : namedBound mu st.builtins inner ≤ n := by
          simpa [namedBound] using hbound
        obtain ⟨f, r, hrr⟩ := ihInner hinner
        have e : resolveTypeF (f + 1) st (Ty.ref inner)
            = match resolveTypeF f st inner with
              | none => none
              | some (.error e) => some (.error e)
              | some (.ok r) => some (.ok (.ref r)) := rfl
        cases r with
        | error er => exact ⟨f + 1, .error er, by rw [e, hrr]⟩
        | ok rt => exact ⟨f + 1, .ok (.ref rt), by rw [e, hrr]⟩
      | hrec fs ihFs =>
        intro hbound
        have hfield : ∀ p ∈ fs, ∃ f r, resolveTypeF f st p.2 = some r := by
          intro p hp
          refine ihFs p hp ?_
          have h1 : namedBound mu st.builtins p.2
              ≤ namedBoundFields mu st.builtins fs := namedBoundFields_ge hp
          have h2 : namedBoundFields mu st.builtins fs
              = namedBound mu st.builtins (Ty.record fs) := rfl
          omega
        obtain ⟨F, r, hF⟩ := resolveFieldsF_term hfield
        have e : resolveTypeF (F + 1) st (Ty.record fs)
            = match resolveFieldsF F st fs with
              | none => none
              | some (.error e) => some (.error e)
              | some (.ok out) => some (.ok (.record out)) := rfl
        cases r with
        | error er => exact ⟨F + 1, .error er, by rw [e, hF]⟩
        | ok out => exact ⟨F + 1, .ok (.record out), by rw [e, hF]⟩
  intro ty
  exact main (namedBound mu st.builtins ty) ty (le_refl _)

/-- C9 counterexample: the claim says `resolve_alias` terminates on every
input because of its visited-name set, but the visited set is reset on
every recursive call made for a top-level `Ref` — with the alias table
`A := &A`, resolving `A` reaches `&A`, recurses on `A` with a fresh
visited set and never returns: the fuelled model returns `none` at every
fuel. -/
theorem c9_resolve_alias_counterexample :
    ¬ ∃ fuel,
      (resolveAliasF fuel [("A", Ty.ref (Ty.named "A"))]
        (Ty.named "A")).isSome = true := by
  have key : ∀ fuel, resolveAliasGo fuel [("A", Ty.ref (Ty.named "A"))] []
      (Ty.named "A") = none := by
    intro fuel
    induction fuel using Nat.strong_induction_on with
    | _ fuel ih =>
      match fuel with
      | 0 => rfl
      | 1 => rfl
      | g+2 =>
        have hg := ih g (by omega)
        simp [resolveAliasGo, lookupAssoc, hg]
  rintro ⟨fuel, hs⟩
  rw [resolveAliasF, key fuel] at hs
  simp at hs

/-- C9 amended: the codegen-side `resolve_alias` terminates on every input
whose alias table has no top-level `Ref` body — in particular on purely
`Named` cycles such as `type A = B; type B = A`, which its visited-name
set guards — but a `Ref` alias body (e.g. `type A = &A`) restarts it with
an empty visited set and can diverge.  The checker's `resolve_type`, which
has no guard at all, terminates for every type over an alias table that is
acyclic (witnessed by a rank function on non-builtin names). -/
theorem c9_alias_termination :
    (∀ (table : List (String × Ty)), noRefBodies table →
      ∀ ty : Ty, ∃ fuel, (resolveAliasF fuel table ty).isSome = true) ∧
    (∀ (st : TCState) (mu : String → Nat), rankedAcyclic st mu →
      ∀ ty : Ty, ∃ fuel r, resolveTypeF fuel st ty = some r) := by
  constructor
  · intro table hnr ty
    induction ty using Ty.myInduction with
    | hn id =>
      exact ⟨notSeenCount table [] + 1,
        resolveAliasGo_term hnr _ [] _ rfl (by omega)⟩
    | hr inner ihInner =>
      obtain ⟨f, hf⟩ := ihInner
      obtain ⟨r, hrr⟩ := Option.isSome_iff_exists.mp hf
      refine ⟨f + 1, ?_⟩
      have e : resolveAliasGo (f + 1) table [] (Ty.ref inner)
          = match resolveAliasGo f table [] inner with
            | none => none
            | some r => some (.ref r) := rfl
      rw [resolveAliasF] at hrr ⊢
      rw [e, hrr]
      rfl
    | hrec fs _ =>
      exact ⟨1, by simp [resolveAliasF, resolveAliasGo]⟩
  · intro st mu hacy ty
    exact resolveTypeF_term hacy ty

/-- C9 witness: the named cycle `A = B; B = A` from the claim terminates
in the cgen resolver; a one-alias acyclic table terminates in the
checker's resolver. -/
theorem c9_alias_termination_witness :
    (∃ fuel, (resolveAliasF fuel [("A", Ty.named "B"), ("B", Ty.named "A")]
      (Ty.named "A")).isSome = true) ∧
    (∃ fuel r, resolveTypeF fuel
      { types := [("P", .named "i32"), ("i32", .named "i32")], funcs := [],
        scopes := [], builtins := ["i32"] }
      (.named "P") = some r) := by
  constructor
  · refine c9_alias_termination.1 _ ?_ (Ty.named "A")
    intro p hp
    simp [List.mem_cons] at hp
    rcases hp with rfl | rfl <;> rfl
  · refine c9_alias_termination.2 _ (fun n => if n = "P" then 1 else 0) ?_
      (.named "P")
    intro n t hla hnb
    by_cases h1 : "P" = n
    · subst h1
      simp [lookupAssoc] at hla
      subst hla
      simp [namedBound]
    · by_cases h2 : "i32" = n
      · subst h2
        simp at hnb
      · simp [lookupAssoc, h1, h2] at hla

/-- C10: `Arena::alloc(size)` succeeds returning a slice of exactly `size`
bytes if and only if `size` is at most `remaining()`, and then the
remaining space drops by exactly `size` (capacity unchanged); a failed
call returns the `OutOfCapacity` error carrying the request and the
remaining space and leaves the arena untouched; `reset()` restores
`remaining()` to `capacity()`. -/
theorem c10_arena :
    (∀ (a : Arena) (size : Nat),
      (∃ s a', a.alloc size = (.ok s, a')) ↔ size ≤ a.remaining) ∧
    (∀ (a : Arena) (size : Nat) (s : List Nat) (a' : Arena),
      a.alloc size = (.ok s, a') →
      s.length = size ∧ a'.remaining + size = a.remaining ∧
      a'.capacity = a.capacity) ∧
    (∀ (a : Arena) (size : Nat) (e : ArenaError) (a' : Arena),
      a.alloc size = (.error e, a') →
      a' = a ∧ e = .outOfCapacity size a.remaining) ∧
    (∀ a : Arena, a.reset.remaining = a.capacity) := by
  refine ⟨?_, ?_, ?_, ?_⟩
  · intro a size
    constructor
    · rintro ⟨s, a', h⟩
      by_cases hgt : size > a.remaining
      · simp [Arena.alloc, hgt] at h
      · omega
    · intro hle
      have hgt : ¬ size > a.remaining := by omega
      exact ⟨(a.buf.take (a.off + size)).drop a.off,
        { a with off := a.off + size }, by simp [Arena.alloc, hgt]⟩
  · intro a size s a' h
    by_cases hgt : size > a.remaining
    · simp [Arena.alloc, hgt] at h
    · simp [Arena.alloc, hgt] at h
      obtain ⟨hs, ha⟩ := h
      have hrem : size ≤ a.buf.length - a.off := by
        simpa [Arena.remaining] using Nat.le_of_not_lt hgt
      refine ⟨?_, ?_, ?_⟩
      · rw [← hs]
        simp [List.length_drop, List.length_take]
        omega
      · rw [← ha]
        simp [Arena.remaining]
        omega
      · rw [← ha]
        simp [Arena.capacity]
  · intro a size e a' h
    by_cases hgt : size > a.remaining
    · simp [Arena.alloc, hgt] at h
      exact ⟨h.2.symm, h.1.symm⟩
    · simp [Arena.alloc, hgt] at h
  · intro a
    simp [Arena.reset, Arena.remaining, Arena.capacity]

/-- C10 witness: a 16-byte arena serves an 8-byte request; a 4-byte arena
refuses an 8-byte request unchanged; reset restores full capacity. -/
theorem c10_arena_witness :
    (∃ s a', (Arena.withCapacity 16).alloc 8 = (.ok s, a')) ∧
    (Arena.withCapacity 4 = Arena.withCapacity 4 ∧
      ArenaError.outOfCapacity 8 4
        = .outOfCapacity 8 (Arena.withCapacity 4).remaining) ∧
    (Arena.withCapacity 16).reset.remaining
      = (Arena.withCapacity 16).capacity := by
  refine ⟨?_, ?_, ?_⟩
  · exact (c10_arena.1 (Arena.withCapacity 16) 8).mpr (by decide)
  · exact c10_arena.2.2.1 (Arena.withCapacity 4) 8 (.outOfCapacity 8 4)
      (Arena.withCapacity 4) (by rfl)
  · exact c10_arena.2.2.2 (Arena.withCapacity 16)
